import Mathlib

/-! Y86 debugger: memory accessors, instruction decoder and executor, debugger commands.

A shallow embedding of `src/instruction.c` and of the commands and the breakpoint list of
`src/debugger.c`.  C objects of type `uint64_t` and `uint8_t` are natural numbers; every
arithmetic result is reduced modulo the width of the C type that holds it.  A C function
with an out-parameter takes the old content of the pointee and returns it (possibly
changed) next to the `int` result.  A C loop that need not end takes the number of
iterations it is allowed as an argument.
-/

namespace Y86

/-- Modulus of `uint64_t` arithmetic. -/
def U64 : Nat := 2 ^ 64

/-- Modelled from the spec: `machine_state_t` of the header `instruction.h`, which is not
among the sources.  `programMap` is the byte found at each offset from the base pointer of
the image (the image itself is the window `[0, programSize)`; offsets outside it are the
surrounding address space), `registerFile` the 64-bit content at each register index. -/
structure machine_state_t where
  programMap : Nat → Nat
  programSize : Nat
  programCounter : Nat
  registerFile : Nat → Nat
  conditionCodes : Nat

/-- Modelled from the spec: `y86_instruction_t` of the header `instruction.h`, which is not
among the sources; the fields are those the code reads and writes. -/
structure y86_instruction_t where
  icode : Nat
  ifun : Nat
  rA : Nat
  rB : Nat
  valC : Nat
  valP : Nat
  location : Nat
deriving DecidableEq, Repr

/-- Modelled from the spec: opcode HALT of `instruction.h` (opcode nibble 0). -/
def I_HALT : Nat := 0x0
/-- Modelled from the spec: opcode nibble 1 of `instruction.h`, inside `[HALT, POP]`. -/
def I_NOP : Nat := 0x1
/-- Modelled from the spec: opcode MOVE-COND of `instruction.h`. -/
def I_RRMVXX : Nat := 0x2
/-- Modelled from the spec: opcode SET-IMMEDIATE of `instruction.h` (first byte `0x30`). -/
def I_IRMOVQ : Nat := 0x3
/-- Modelled from the spec: opcode STORE-INDIRECT of `instruction.h`. -/
def I_RMMOVQ : Nat := 0x4
/-- Modelled from the spec: opcode LOAD-INDIRECT of `instruction.h`. -/
def I_MRMOVQ : Nat := 0x5
/-- Modelled from the spec: opcode ALU-OP of `instruction.h`. -/
def I_OPQ : Nat := 0x6
/-- Modelled from the spec: opcode JUMP-COND of `instruction.h`. -/
def I_JXX : Nat := 0x7
/-- Modelled from the spec: opcode CALL of `instruction.h`. -/
def I_CALL : Nat := 0x8
/-- Modelled from the spec: opcode RETURN of `instruction.h`. -/
def I_RET : Nat := 0x9
/-- Modelled from the spec: opcode PUSH of `instruction.h`. -/
def I_PUSHQ : Nat := 0xA
/-- Modelled from the spec: opcode POP of `instruction.h`. -/
def I_POPQ : Nat := 0xB
/-- Modelled from the spec: decode result INVALID of `instruction.h`, a value no opcode
nibble takes. -/
def I_INVALID : Nat := 0x10
/-- Modelled from the spec: decode result TOO-SHORT of `instruction.h`, a value no opcode
nibble takes. -/
def I_TOO_SHORT : Nat := 0x11

/-- Modelled from the spec: the register identifier NONE (`0xF`) of `instruction.h`. -/
def R_NONE : Nat := 0xF
/-- Modelled from the spec: index of the stack pointer register in `instruction.h`. -/
def R_RSP : Nat := 0x4

/-- Modelled from the spec: function code NO-CONDITION of `instruction.h`. -/
def C_NC : Nat := 0x0
/-- Modelled from the spec: function code LESS-EQUAL of `instruction.h`. -/
def C_LE : Nat := 0x1
/-- Modelled from the spec: function code LESS of `instruction.h`. -/
def C_L : Nat := 0x2
/-- Modelled from the spec: function code EQUAL of `instruction.h`. -/
def C_E : Nat := 0x3
/-- Modelled from the spec: function code NOT-EQUAL of `instruction.h`. -/
def C_NE : Nat := 0x4
/-- Modelled from the spec: function code GREATER-EQUAL of `instruction.h`. -/
def C_GE : Nat := 0x5
/-- Modelled from the spec: function code GREATER (6) of `instruction.h`. -/
def C_G : Nat := 0x6

/-- Modelled from the spec: ALU sub-op add of `instruction.h`. -/
def A_ADDQ : Nat := 0x0
/-- Modelled from the spec: ALU sub-op sub of `instruction.h`. -/
def A_SUBQ : Nat := 0x1
/-- Modelled from the spec: ALU sub-op and of `instruction.h`. -/
def A_ANDQ : Nat := 0x2
/-- Modelled from the spec: ALU sub-op xor of `instruction.h`. -/
def A_XORQ : Nat := 0x3
/-- Modelled from the spec: ALU sub-op multiply of `instruction.h`. -/
def A_MULQ : Nat := 0x4
/-- Modelled from the spec: ALU sub-op divide of `instruction.h`. -/
def A_DIVQ : Nat := 0x5
/-- Modelled from the spec: ALU sub-op modulo of `instruction.h`. -/
def A_MODQ : Nat := 0x6

/-! ## Memory accessors -/

/-- `isValidAddress`: `address >= 0 && address <= max` on `uint64_t`. -/
def isValidAddress (address max : Nat) : Nat :=
  if 0 ≤ address ∧ address ≤ max then 1 else 0

/-- `memReadByte`: the pair of the returned `int` and the content of `*value` afterwards
(`value` is its content before the call, left as it is on failure). -/
def memReadByte (state : machine_state_t) (address : Nat) (value : Nat) : Nat × Nat :=
  if isValidAddress address state.programSize ≠ 0 then
    (1, state.programMap address % 256)
  else
    (0, value)

/-- The expression `nextByte << (8 * offset)` of `memReadQuadLE`, converted to `uint64_t`
as the `+=` does.  `nextByte` is promoted to a 32-bit `int`, so the shift is an `int`
shift: the count is taken modulo 32 (the x86-64 shift instruction), the result keeps 32
bits in two's complement, and the conversion to `uint64_t` extends the sign. -/
def shlIntToU64 (nextByte count : Nat) : Nat :=
  let r := (nextByte * 2 ^ (count % 32)) % 2 ^ 32
  if r < 2 ^ 31 then r else r + (U64 - 2 ^ 32)

/-- The loop of `memReadQuadLE`, `for (int offset = 7; offset >= 0; offset--)`: `n` is
`offset + 1`, `value` the content of `*value`.  The local `nextByte` has no initialiser:
`uninit offset` is the indeterminate content it has in the iteration for `offset`, kept
when `memReadByte` fails (its result is ignored). -/
def memReadQuadLE_loop (uninit : Nat → Nat) (state : machine_state_t) (address : Nat) :
    Nat → Nat → Nat
  | 0, value => value
  | offset + 1, value =>
    let nextByte := (memReadByte state ((address + offset) % U64) (uninit offset % 256)).2
    memReadQuadLE_loop uninit state address offset
      ((value + shlIntToU64 nextByte (8 * offset)) % U64)

/-- `memReadQuadLE`: the returned `int` and the content of `*value` afterwards. -/
def memReadQuadLE (uninit : Nat → Nat) (state : machine_state_t) (address : Nat)
    (value : Nat) : Nat × Nat :=
  if isValidAddress address state.programSize ≠ 0 then
    (1, memReadQuadLE_loop uninit state address 8 0)
  else
    (0, value)

/-- `memWriteByte`: the returned `int` and the machine state afterwards. -/
def memWriteByte (state : machine_state_t) (address : Nat) (value : Nat) :
    Nat × machine_state_t :=
  if isValidAddress address state.programSize ≠ 0 then
    (1, { state with programMap := Function.update state.programMap address (value % 256) })
  else
    (0, state)

/-- The loop of `memWriteQuadLE`, `for (int offset = 0; offset < 7; offset++)`, from
`offset` on with `fuel` iterations left: each stores
`(value >> (8 * offset)) * 0xff`, truncated to a byte, at `memory[address + offset]`. -/
def memWriteQuadLE_loop (address value : Nat) : Nat → Nat → (Nat → Nat) → (Nat → Nat)
  | 0, _, memory => memory
  | fuel + 1, offset, memory =>
    memWriteQuadLE_loop address value fuel (offset + 1)
      (Function.update memory ((address + offset) % U64)
        (((value >>> (8 * offset)) * 0xff) % U64 % 256))

/-- `memWriteQuadLE`: the returned `int` and the machine state afterwards. -/
def memWriteQuadLE (state : machine_state_t) (address : Nat) (value : Nat) :
    Nat × machine_state_t :=
  if isValidAddress address state.programSize ≠ 0 then
    (1, { state with programMap := memWriteQuadLE_loop address value 7 0 state.programMap })
  else
    (0, state)

/-! ## Instruction decoder -/

/-- The block `//Set ValC` of `fetchInstruction` up to its `return 1`.  The local `valC`
is read only after `memReadQuadLE` has stored into it, so its initial content is given
as 0.  The second range test, `iCode >= I_RMMOVQ`, has no upper bound. -/
def fetchInstruction_valC (uninit : Nat → Nat) (state : machine_state_t) (iCode : Nat)
    (instr : y86_instruction_t) : Nat × y86_instruction_t :=
  if (iCode ≥ I_IRMOVQ ∧ iCode ≤ I_MRMOVQ) ∨ iCode = I_JXX ∨ iCode = I_CALL then
    let r := memReadQuadLE uninit state instr.valP 0
    if r.1 = 0 then
      (0, { instr with icode := I_TOO_SHORT })
    else
      let valC := r.2
      if iCode ≥ I_JXX ∧ isValidAddress valC state.programSize = 0 then
        (0, { instr with icode := I_INVALID })
      else if iCode ≥ I_RMMOVQ ∧
          isValidAddress ((valC + instr.rB) % U64) state.programSize = 0 then
        (0, { instr with icode := I_INVALID })
      else
        (1, { instr with valC := valC, valP := (instr.valP + 8) % U64 })
  else
    (1, instr)

/-- The block `//Set registers` of `fetchInstruction`, followed by the rest of the
function.  The local `secondByte` is read only after a successful `memReadByte`. -/
def fetchInstruction_registers (uninit : Nat → Nat) (state : machine_state_t) (iCode : Nat)
    (instr : y86_instruction_t) : Nat × y86_instruction_t :=
  if (iCode ≥ I_RRMVXX ∧ iCode ≤ I_OPQ) ∨ iCode ≥ I_PUSHQ then
    let r := memReadByte state instr.valP 0
    if r.1 = 0 then
      (0, { instr with icode := I_TOO_SHORT })
    else
      let secondByte := r.2
      let rA := (secondByte &&& 0xf0) >>> 4
      let rB := secondByte &&& 0xf
      if (iCode ≥ I_RRMVXX ∧ iCode ≤ I_OPQ) ∧ rB = 0xf then
        (0, { instr with icode := I_INVALID, ifun := 0x0 })
      else if (iCode ≥ I_RRMVXX ∧ iCode ≤ I_OPQ) ∧ iCode = I_IRMOVQ ∧ rA ≠ 0xf then
        (0, { instr with icode := I_INVALID, ifun := 0x0 })
      else if (iCode ≥ I_RRMVXX ∧ iCode ≤ I_OPQ) ∧ iCode ≠ I_IRMOVQ ∧ rA = 0xf then
        (0, { instr with icode := I_INVALID, ifun := 0x0 })
      else
        fetchInstruction_valC uninit state iCode
          { instr with rA := rA, rB := rB, valP := (instr.valP + 1) % U64 }
  else
    fetchInstruction_valC uninit state iCode instr

/-- The part of `fetchInstruction` after the function-nibble checks: `valP` is set to
`pc + 1` unless the opcode is HALT (for HALT the field keeps what the record held). -/
def fetchInstruction_body (uninit : Nat → Nat) (state : machine_state_t) (iCode : Nat)
    (instr : y86_instruction_t) : Nat × y86_instruction_t :=
  fetchInstruction_registers uninit state iCode
    (if iCode ≠ I_HALT then { instr with valP := (state.programCounter + 1) % U64 }
     else instr)

/-- `fetchInstruction`: the returned `int` and the content of `*instr` afterwards (`instr`
is its content before the call; the fields the function does not assign keep it).  The
local `firstByte` is read only after a successful `memReadByte`. -/
def fetchInstruction (uninit : Nat → Nat) (state : machine_state_t)
    (instr : y86_instruction_t) : Nat × y86_instruction_t :=
  let pc := state.programCounter
  let r := memReadByte state pc 0
  if r.1 = 0 then
    (0, { instr with icode := I_TOO_SHORT })
  else
    let firstByte := r.2
    let iCode := (firstByte &&& 0xf0) >>> 4
    let iFun := firstByte &&& 0xf
    let instr1 : y86_instruction_t :=
      { instr with icode := iCode, ifun := iFun, rA := R_NONE, rB := R_NONE, location := pc }
    if iCode ≥ I_HALT ∧ iCode ≤ I_POPQ then
      if iCode = I_IRMOVQ ∨ iCode = I_OPQ ∨ iCode = I_JXX then
        if ¬ (iFun ≥ C_NC ∧ iFun ≤ C_G) then
          (0, { instr1 with icode := I_INVALID, ifun := 0x0 })
        else
          fetchInstruction_body uninit state iCode instr1
      else if iFun ≠ C_NC then
        (0, { instr1 with icode := I_INVALID, ifun := 0x0 })
      else
        fetchInstruction_body uninit state iCode instr1
    else
      (0, { instr1 with icode := I_INVALID, ifun := 0x0 })

/-! ## Instruction executor -/

/-- `setCC`: the condition codes computed from `dest`. -/
def setCC (dest : Nat) : Nat :=
  let cc := if dest &&& 0x80000000 ≠ 0 then 0x2 else 0
  if dest = 0x0 then (cc + 1) % 256 else cc

/-- The inner `switch (iFun)` of the cases `I_RRMVXX` and `I_JXX` of `executeInstruction`,
which test the same conditions on `cc`: whether the move or jump is taken.  A function
code with no `case` takes nothing. -/
def conditionHolds (cc iFun : Nat) : Bool :=
  if iFun = C_NC then true
  else if iFun = C_LE then (cc &&& 0x3) != 0
  else if iFun = C_L then (cc &&& 0x2) == 2
  else if iFun = C_E then (cc &&& 0x1) == 1
  else if iFun = C_NE then (cc &&& 0x1) == 0
  else if iFun = C_GE then (cc &&& 0x2) == 0
  else if iFun = C_G then (cc &&& 0x3) == 0
  else false

/-- The inner `switch (iFun)` of the case `I_OPQ`: the new content of `registerFile[rB]`
from its old content `b` and `a = registerFile[rA]`; `none` when the C division traps
(divisor 0).  A function code with no `case` leaves the register as it is. -/
def aluResult (iFun b a : Nat) : Option Nat :=
  if iFun = A_ADDQ then some ((b + a) % U64)
  else if iFun = A_SUBQ then some ((b + (U64 - a % U64)) % U64)
  else if iFun = A_ANDQ then some ((b &&& a) % U64)
  else if iFun = A_XORQ then some ((b ^^^ a) % U64)
  else if iFun = A_MULQ then some ((b * a) % U64)
  else if iFun = A_DIVQ then (if a = 0 then none else some ((b / a) % U64))
  else if iFun = A_MODQ then (if a = 0 then none else some ((b % a) % U64))
  else some b

/-- The tail `// UPDATE MACHINE STATE` of `executeInstruction`, which returns 1. -/
def executeInstruction_update (state : machine_state_t) (valP cc : Nat) :
    Option (Nat × machine_state_t) :=
  some (1, { state with programCounter := valP, conditionCodes := cc % 256 })

/-- `executeInstruction`: the returned `int` and the machine state afterwards; `none` when
the process traps on a division by zero.  The locals `iCode`, `iFun`, `rA`, `rB` are
`uint8_t`.  The store to `state->programCounter` precedes the `switch`, so it is part of
the state returned by the cases that `return 0`. -/
def executeInstruction (state : machine_state_t) (instr : y86_instruction_t) :
    Option (Nat × machine_state_t) :=
  let iCode := instr.icode % 256
  let iFun := instr.ifun % 256
  let rA := instr.rA % 256
  let rB := instr.rB % 256
  let valC := instr.valC
  let valP := instr.valP
  let cc := state.conditionCodes
  let reg := state.registerFile
  let mem := state.programMap
  let st : machine_state_t := { state with programCounter := instr.valP }
  if iCode = I_RRMVXX then
    if conditionHolds cc iFun then
      executeInstruction_update { st with registerFile := Function.update reg rB (reg rA) }
        valP cc
    else
      executeInstruction_update st valP cc
  else if iCode = I_IRMOVQ then
    executeInstruction_update { st with registerFile := Function.update reg rB valC } valP cc
  else if iCode = I_RMMOVQ then
    executeInstruction_update
      { st with programMap := Function.update mem ((valC + reg rB) % U64) (reg rA % 256) }
      valP cc
  else if iCode = I_MRMOVQ then
    executeInstruction_update
      { st with registerFile := Function.update reg rA (mem ((valC + reg rB) % U64) % 256) }
      valP cc
  else if iCode = I_OPQ then
    match aluResult iFun (reg rB) (reg rA) with
    | none => none
    | some v =>
      executeInstruction_update { st with registerFile := Function.update reg rB v }
        valP (setCC v)
  else if iCode = I_JXX then
    executeInstruction_update st (if conditionHolds cc iFun then valC else valP) cc
  else if iCode = I_CALL then
    executeInstruction_update
      { st with
        programMap := Function.update mem ((reg R_RSP + (U64 - 8)) % U64) (valP % 256)
        registerFile := Function.update reg R_RSP ((reg R_RSP + (U64 - 8)) % U64) }
      valC cc
  else if iCode = I_RET then
    executeInstruction_update
      { st with registerFile := Function.update reg R_RSP ((reg R_RSP + 8) % U64) }
      (mem (reg R_RSP) % 256) cc
  else if iCode = I_PUSHQ then
    executeInstruction_update
      { st with
        programMap := Function.update mem ((reg R_RSP + (U64 - 8)) % U64) (reg rA % 256)
        registerFile := Function.update reg R_RSP ((reg R_RSP + (U64 - 8)) % U64) }
      valP cc
  else if iCode = I_POPQ then
    let reg1 := Function.update reg rA (mem (reg R_RSP) % 256)
    executeInstruction_update
      { st with registerFile := Function.update reg1 R_RSP ((reg1 R_RSP + 8) % U64) }
      valP cc
  else
    some (0, st)

/-! ## Notions used by the statements -/

/-- High nibble of the byte at the program counter. -/
def opcodeNibble (s : machine_state_t) : Nat := s.programMap s.programCounter % 256 / 16

/-- Low nibble of the byte at the program counter. -/
def functionNibble (s : machine_state_t) : Nat := s.programMap s.programCounter % 256 % 16

/-- The byte after the opcode byte (the register-pair byte of the opcodes that have one). -/
def registerByte (s : machine_state_t) : Nat :=
  s.programMap ((s.programCounter + 1) % U64) % 256

/-- A machine whose image is the byte list `bytes`: `programSize` is its length, the
address space after the image reads as zero (the fill of a mapped file), registers and
condition codes are zero. -/
def loadImage (bytes : List Nat) (pc : Nat) : machine_state_t :=
  { programMap := fun a => bytes.getD a 0
    programSize := bytes.length
    programCounter := pc
    registerFile := fun _ => 0
    conditionCodes := 0 }

/-- An instruction record with every field zero. -/
def zeroInstruction : y86_instruction_t :=
  { icode := 0, ifun := 0, rA := 0, rB := 0, valC := 0, valP := 0, location := 0 }

/-- An indeterminate-content assignment giving zero to every uninitialised local. -/
def zeroUninit : Nat → Nat := fun _ => 0

/-- The 8 bytes of the 64-bit value `v`, least significant first. -/
def quadBytesLE (v : Nat) : List Nat :=
  (List.range 8).map (fun i => v / 256 ^ i % 256)

/-- Encoding of SET-IMMEDIATE of `v` into register `r`: `0x30`, `0xF0 | r`, then the bytes
of `v` least significant first. -/
def encodeSetImmediate (r v : Nat) : List Nat :=
  [0x30, 0xF0 ||| r] ++ quadBytesLE v

/-- The little-endian value of the 8 bytes at `a .. a+7`: the sum of
`memory[a+i] * 256^i`. -/
def littleEndianQuad (s : machine_state_t) (a : Nat) : Nat :=
  ((List.range 8).map (fun i => s.programMap (a + i) % 256 * 256 ^ i)).sum

/-- The machine `s` with the same image but the byte `b` right after it (offset
`programSize`, the first one outside the image). -/
def withByteAfterImage (s : machine_state_t) (b : Nat) : machine_state_t :=
  { s with programMap := Function.update s.programMap s.programSize b }

/-- A 26-byte image: `jmp 0xA` at 0, opcode nibble 1 at 9, `halt` at 0xA, then zeros. -/
def jumpToHaltImage : List Nat :=
  [0x70, 0x0A, 0, 0, 0, 0, 0, 0, 0, 0x10, 0x00, 0, 0, 0, 0, 0, 0, 0, 0, 0, 0, 0, 0, 0, 0, 0]

/-- The ALU sub-operations on 64-bit values, `b op a` modulo 2^64, by function code:
add, sub, and, xor, multiply, divide, modulo. -/
def aluSpec (f b a : Nat) : Nat :=
  if f = 0 then (b + a) % 2 ^ 64
  else if f = 1 then (((b : Int) - (a : Int)) % (2 ^ 64 : Int)).toNat
  else if f = 2 then (b &&& a) % 2 ^ 64
  else if f = 3 then (b ^^^ a) % 2 ^ 64
  else if f = 4 then (b * a) % 2 ^ 64
  else if f = 5 then (b / a) % 2 ^ 64
  else (b % a) % 2 ^ 64

/-- The jump condition for flags `cc` (bit 0 Zero, bit 1 Sign) and function code `f`:
0 always, 1 LESS-EQUAL, 2 LESS, 3 EQUAL, 4 NOT-EQUAL, 5 GREATER-EQUAL, 6 GREATER. -/
def jumpConditionSpec (cc f : Nat) : Prop :=
  f = 0 ∨ (f = 1 ∧ cc &&& 3 ≠ 0) ∨ (f = 2 ∧ cc &&& 2 ≠ 0) ∨ (f = 3 ∧ cc &&& 1 ≠ 0) ∨
  (f = 4 ∧ cc &&& 1 = 0) ∨ (f = 5 ∧ cc &&& 2 = 0) ∨ (f = 6 ∧ cc &&& 3 = 0)

instance (cc f : Nat) : Decidable (jumpConditionSpec cc f) := by
  unfold jumpConditionSpec; infer_instance

/-- A machine with an empty image, 3 in register 0 and 12 in every other register, and the
Sign flag set. -/
def aluState : machine_state_t :=
  { programMap := fun _ => 0
    programSize := 0
    programCounter := 0
    registerFile := fun r => if r = 0 then 3 else 12
    conditionCodes := 2 }

/-! ## Debugger commands (`main` of `src/debugger.c`) -/

/-- How a command of the debugger ends: with the machine state and the record
`nextInstruction` it leaves, with the process killed by a division trap inside
`executeInstruction`, or with a loop of the command still running when the iterations
allowed to the model are used up. -/
inductive outcome where
  | finished (state : machine_state_t) (nextInstruction : y86_instruction_t)
  | trapped
  | outOfFuel

/-- The `step` command: execute `nextInstruction`; when `executeInstruction` returns 0
the record is left as it is, otherwise the next one is fetched into it. -/
def main_step (uninit : Nat → Nat) (state : machine_state_t)
    (nextInstruction : y86_instruction_t) : outcome :=
  match executeInstruction state nextInstruction with
  | none => outcome.trapped
  | some (r, st) =>
    if r = 0 then outcome.finished st nextInstruction
    else outcome.finished st (fetchInstruction uninit st nextInstruction).2

/-- The loop `// Repeated Execution` of the `run` command, with at most `fuel` iterations.
`hasBp address` is the `int` that `hasBreakpoint(address)` returns (the command does not
change the breakpoint list).  The `continue` after a failed `executeInstruction` goes back
to the test of this loop. -/
def main_run_loop (hasBp : Nat → Nat) (uninit : Nat → Nat) :
    Nat → machine_state_t → y86_instruction_t → outcome
  | 0, state, nextInstruction =>
    if hasBp state.programCounter = 0 ∧ nextInstruction.icode ≠ I_HALT ∧
        nextInstruction.icode ≠ I_INVALID then
      outcome.outOfFuel
    else
      outcome.finished state nextInstruction
  | fuel + 1, state, nextInstruction =>
    if hasBp state.programCounter = 0 ∧ nextInstruction.icode ≠ I_HALT ∧
        nextInstruction.icode ≠ I_INVALID then
      match executeInstruction state nextInstruction with
      | none => outcome.trapped
      | some (r, st) =>
        if r = 0 then main_run_loop hasBp uninit fuel st nextInstruction
        else main_run_loop hasBp uninit fuel st (fetchInstruction uninit st nextInstruction).2
    else
      outcome.finished state nextInstruction

/-- The `run` command: the `step` sequence, then the loop (entered only when the first
`executeInstruction` returned nonzero). -/
def main_run (hasBp : Nat → Nat) (uninit : Nat → Nat) (fuel : Nat) (state : machine_state_t)
    (nextInstruction : y86_instruction_t) : outcome :=
  match executeInstruction state nextInstruction with
  | none => outcome.trapped
  | some (r, st) =>
    if r = 0 then outcome.finished st nextInstruction
    else main_run_loop hasBp uninit fuel st (fetchInstruction uninit st nextInstruction).2

/-- The loop `// Repeated execution` of the CALL branch of the `next` command, with at
most `fuel` iterations; `stackPointer` is the saved stack pointer.  A failed
`executeInstruction` leaves the loop (`break`), and so does a stack pointer equal to the
saved one after the fetch. -/
def main_next_loop (hasBp : Nat → Nat) (uninit : Nat → Nat) (stackPointer : Nat) :
    Nat → machine_state_t → y86_instruction_t → outcome
  | 0, state, nextInstruction =>
    if hasBp state.programCounter = 0 ∧ nextInstruction.icode ≠ I_HALT ∧
        nextInstruction.icode ≠ I_INVALID then
      outcome.outOfFuel
    else
      outcome.finished state nextInstruction
  | fuel + 1, state, nextInstruction =>
    if hasBp state.programCounter = 0 ∧ nextInstruction.icode ≠ I_HALT ∧
        nextInstruction.icode ≠ I_INVALID then
      match executeInstruction state nextInstruction with
      | none => outcome.trapped
      | some (r, st) =>
        if r = 0 then outcome.finished st nextInstruction
        else if stackPointer = st.registerFile R_RSP then
          outcome.finished st (fetchInstruction uninit st nextInstruction).2
        else
          main_next_loop hasBp uninit stackPointer fuel st
            (fetchInstruction uninit st nextInstruction).2
    else
      outcome.finished state nextInstruction

/-- The `next` command: the `step` sequence when the record is not a CALL, otherwise the
loop with the current stack pointer saved. -/
def main_next (hasBp : Nat → Nat) (uninit : Nat → Nat) (fuel : Nat) (state : machine_state_t)
    (nextInstruction : y86_instruction_t) : outcome :=
  if nextInstruction.icode ≠ I_CALL then
    main_step uninit state nextInstruction
  else
    main_next_loop hasBp uninit (state.registerFile R_RSP) fuel state nextInstruction

/-- The `jump` command with a parameter: `address` is the value of
`strtoul(parameters, NULL, 16)`. -/
def main_jump (uninit : Nat → Nat) (state : machine_state_t)
    (nextInstruction : y86_instruction_t) (address : Nat) : outcome :=
  outcome.finished { state with programCounter := address }
    (fetchInstruction uninit { state with programCounter := address } nextInstruction).2

/-- One successful `executeInstruction` followed by the fetch at the new program counter,
on the pair of machine state and current record; `none` when the execution traps or
returns 0. -/
def executeAndDecode (uninit : Nat → Nat) (p : machine_state_t × y86_instruction_t) :
    Option (machine_state_t × y86_instruction_t) :=
  match executeInstruction p.1 p.2 with
  | none => none
  | some (r, st) => if r = 0 then none else some (st, (fetchInstruction uninit st p.2).2)

/-- The pair reached after `n` successful execute-and-decode rounds, if all succeed. -/
def executeAndDecodeN (uninit : Nat → Nat) :
    Nat → machine_state_t × y86_instruction_t → Option (machine_state_t × y86_instruction_t)
  | 0, p => some p
  | n + 1, p =>
    match executeAndDecode uninit p with
    | none => none
    | some q => executeAndDecodeN uninit n q

/-- A 9-byte image: a SET-IMMEDIATE whose last immediate byte lies at offset 9, the first
one after the image. -/
def truncatedImage : List Nat := [0x30, 0xF0, 5, 0, 0, 0, 0, 0, 0]

/-- The membership test of an empty breakpoint list. -/
def noBreakpoints : Nat → Nat := fun _ => 0

/-- A 21-byte image: SET-IMMEDIATE at 0, SET-IMMEDIATE at 10, HALT at 20. -/
def twoMovesImage : List Nat :=
  [0x30, 0xF0, 5, 0, 0, 0, 0, 0, 0, 0, 0x30, 0xF1, 7, 0, 0, 0, 0, 0, 0, 0, 0x00]

/-- The membership test of the breakpoint list holding the single address 20. -/
def breakpointAt20 : Nat → Nat := fun a => if a = 20 then 1 else 0

/-- The machine loaded with `twoMovesImage` at program counter 0 and its first decode. -/
def twoMovesStart : machine_state_t × y86_instruction_t :=
  (loadImage twoMovesImage 0,
    (fetchInstruction zeroUninit (loadImage twoMovesImage 0) zeroInstruction).2)

/-- The pair reached from `twoMovesStart` after two execute-and-decode rounds. -/
def twoMovesReached : machine_state_t × y86_instruction_t :=
  (executeAndDecodeN zeroUninit 2 twoMovesStart).getD twoMovesStart

/-- A 64-byte image: `call 0x20` at 0, HALT at 9, RETURN at 0x20, zeros elsewhere. -/
def callReturnImage : List Nat :=
  [0x80, 0x20, 0, 0, 0, 0, 0, 0, 0, 0x00] ++ List.replicate 22 0 ++ [0x90] ++
    List.replicate 31 0

/-- The machine loaded with `callReturnImage` at program counter 0, the stack pointer at
64, and its first decode. -/
def callReturnStart : machine_state_t × y86_instruction_t :=
  ({ loadImage callReturnImage 0 with registerFile := fun r => if r = R_RSP then 64 else 0 },
    (fetchInstruction zeroUninit (loadImage callReturnImage 0) zeroInstruction).2)

/-- The pair reached from `callReturnStart` after two execute-and-decode rounds. -/
def callReturnReached : machine_state_t × y86_instruction_t :=
  (executeAndDecodeN zeroUninit 2 callReturnStart).getD callReturnStart

/-- A 512-byte image: RETURN at 0x40, `call 0x40` at 0x100, zeros elsewhere. -/
def farCallImage : List Nat :=
  List.replicate 0x40 0 ++ [0x90] ++ List.replicate 0xBF 0 ++
    [0x80, 0x40, 0, 0, 0, 0, 0, 0, 0] ++ List.replicate 0xF7 0

/-- The machine loaded with `farCallImage` at program counter 0x100, the stack pointer at
0x200, and its first decode. -/
def farCallStart : machine_state_t × y86_instruction_t :=
  ({ loadImage farCallImage 0x100 with
      registerFile := fun r => if r = R_RSP then 0x200 else 0 },
    (fetchInstruction zeroUninit (loadImage farCallImage 0x100) zeroInstruction).2)

/-! ## Breakpoint list (`src/debugger.c`) -/

/-- `struct breakpoint`: a node of the list; `next` is a pointer, 0 standing for NULL. -/
structure breakpoint where
  value : Nat
  next : Nat
deriving DecidableEq, Repr

/-- The state the breakpoint functions work on: the node found at each address, the
globals `head` and `end` (0 for NULL), and the address the next `malloc` returns.
`malloc` returns an address it never returned before; `free` leaves the cell as it is, and
the pointers to it keep their value. -/
structure breakpoint_list where
  cells : Nat → breakpoint
  head : Nat
  end_ : Nat
  fresh : Nat

/-- The state at program start: `head = NULL`, `end = NULL`. -/
def emptyBreakpoints : breakpoint_list :=
  { cells := fun _ => { value := 0, next := 0 }, head := 0, end_ := 0, fresh := 1 }

/-- The loop of `hasBreakpoint` from `pointer`, with at most `fuel` iterations: the value
of `found` at its end, `none` when the iterations do not suffice. -/
def hasBreakpoint_loop (cells : Nat → breakpoint) (address : Nat) : Nat → Nat → Option Nat
  | 0, pointer => if pointer ≠ 0 then none else some 0
  | fuel + 1, pointer =>
    if pointer ≠ 0 then
      if (cells pointer).value = address then some 1
      else hasBreakpoint_loop cells address fuel (cells pointer).next
    else some 0

/-- `hasBreakpoint`: the `int` returned. -/
def hasBreakpoint (fuel : Nat) (l : breakpoint_list) (address : Nat) : Option Nat :=
  hasBreakpoint_loop l.cells address fuel l.head

/-- `addBreakpoint`: the list state afterwards. -/
def addBreakpoint (fuel : Nat) (l : breakpoint_list) (address : Nat) :
    Option breakpoint_list :=
  match hasBreakpoint fuel l address with
  | none => none
  | some found =>
    if found = 0 then
      let newBreakpoint := l.fresh
      let cells1 := Function.update l.cells newBreakpoint { value := address, next := 0 }
      if l.head = 0 ∧ l.end_ = 0 then
        some { cells := cells1, head := newBreakpoint, end_ := newBreakpoint,
               fresh := l.fresh + 1 }
      else
        some
          { cells := Function.update cells1 l.end_ { cells1 l.end_ with next := newBreakpoint }
            head := l.head
            end_ := newBreakpoint
            fresh := l.fresh + 1 }
    else
      some l

/-- The loop of `deleteBreakpoint` from `pointer` and `previous`, with at most `fuel`
iterations.  Neither branch assigns `end`. -/
def deleteBreakpoint_loop (address : Nat) :
    Nat → breakpoint_list → Nat → Nat → Option breakpoint_list
  | 0, l, pointer, _ => if pointer ≠ 0 then none else some l
  | fuel + 1, l, pointer, previous =>
    if pointer ≠ 0 then
      if (l.cells pointer).value = address then
        if previous = 0 ∧ pointer = l.head then
          some { l with head := (l.cells l.head).next }
        else
          some
            { l with
              cells := Function.update l.cells previous
                { l.cells previous with next := (l.cells pointer).next } }
      else
        deleteBreakpoint_loop address fuel l (l.cells pointer).next pointer
    else some l

/-- `deleteBreakpoint`: the list state afterwards. -/
def deleteBreakpoint (fuel : Nat) (l : breakpoint_list) (address : Nat) :
    Option breakpoint_list :=
  deleteBreakpoint_loop address fuel l l.head 0

/-- The loop of `deleteAllBreakpoints` from `pointer`, with at most `fuel` iterations:
whether it ends. -/
def deleteAllBreakpoints_loop (cells : Nat → breakpoint) : Nat → Nat → Option Unit
  | 0, pointer => if pointer ≠ 0 then none else some ()
  | fuel + 1, pointer =>
    if pointer ≠ 0 then deleteAllBreakpoints_loop cells fuel (cells pointer).next
    else some ()

/-- `deleteAllBreakpoints`: the list state afterwards. -/
def deleteAllBreakpoints (fuel : Nat) (l : breakpoint_list) : Option breakpoint_list :=
  match deleteAllBreakpoints_loop l.cells fuel l.head with
  | none => none
  | some _ => some { l with head := 0, end_ := 0 }

/-- The list states reachable from the empty list by calls of `addBreakpoint`,
`deleteBreakpoint` and `deleteAllBreakpoints` that return. -/
inductive ReachableBreakpoints : breakpoint_list → Prop
  | empty : ReachableBreakpoints emptyBreakpoints
  | add (fuel : Nat) (l l1 : breakpoint_list) (address : Nat) :
      ReachableBreakpoints l → addBreakpoint fuel l address = some l1 →
      ReachableBreakpoints l1
  | delete (fuel : Nat) (l l1 : breakpoint_list) (address : Nat) :
      ReachableBreakpoints l → deleteBreakpoint fuel l address = some l1 →
      ReachableBreakpoints l1
  | deleteAll (fuel : Nat) (l l1 : breakpoint_list) :
      ReachableBreakpoints l → deleteAllBreakpoints fuel l = some l1 →
      ReachableBreakpoints l1

/-- The addresses `ps` are the nodes met from `p` by following `next` up to NULL. -/
def IsChain (cells : Nat → breakpoint) : Nat → List Nat → Prop
  | p, [] => p = 0
  | p, q :: qs => p = q ∧ q ≠ 0 ∧ IsChain cells (cells q).next qs

/-- The invariant of the reachable list states: the nodes from `head` form a chain of
distinct allocated addresses holding distinct values, and `end` is NULL with an empty
chain, or the last node of the chain, or a node outside the chain. -/
def BreakpointsInv (l : breakpoint_list) : Prop :=
  ∃ ps : List Nat, IsChain l.cells l.head ps ∧ ps.Nodup ∧ (∀ q ∈ ps, q < l.fresh) ∧
    (ps.map (fun q => (l.cells q).value)).Nodup ∧ l.end_ < l.fresh ∧ ps.length < l.fresh ∧
    ((ps = [] ∧ l.end_ = 0) ∨ (∃ init, ps = init ++ [l.end_]) ∨ (l.end_ ≠ 0 ∧ l.end_ ∉ ps))

/-- The list state after `addBreakpoint(0x10)` on the empty list. -/
def oneBreakpoint : breakpoint_list :=
  (addBreakpoint 1 emptyBreakpoints 0x10).getD emptyBreakpoints

/-- The records on which `executeInstruction` returned nonzero inside the loop of `run`,
in order, within `fuel` iterations: the loop `main_run_loop` with the executed records
collected. -/
def main_run_loop_executed (hasBp : Nat → Nat) (uninit : Nat → Nat) :
    Nat → machine_state_t → y86_instruction_t → List y86_instruction_t
  | 0, _, _ => []
  | fuel + 1, state, nextInstruction =>
    if hasBp state.programCounter = 0 ∧ nextInstruction.icode ≠ I_HALT ∧
        nextInstruction.icode ≠ I_INVALID then
      match executeInstruction state nextInstruction with
      | none => []
      | some (r, st) =>
        if r = 0 then main_run_loop_executed hasBp uninit fuel st nextInstruction
        else nextInstruction ::
          main_run_loop_executed hasBp uninit fuel st
            (fetchInstruction uninit st nextInstruction).2
    else
      []

/-- The records executed by the loop of the `run` command (the first, unconditional
execution of the command not included). -/
def main_run_executed (hasBp : Nat → Nat) (uninit : Nat → Nat) (fuel : Nat)
    (state : machine_state_t) (nextInstruction : y86_instruction_t) :
    List y86_instruction_t :=
  match executeInstruction state nextInstruction with
  | none => []
  | some (r, st) =>
    if r = 0 then []
    else main_run_loop_executed hasBp uninit fuel st
      (fetchInstruction uninit st nextInstruction).2

/-- The opcodes `executeInstruction` has a `case` for, other than INVALID and TOO-SHORT. -/
def executableIcode (instr : y86_instruction_t) : Prop :=
  I_RRMVXX ≤ instr.icode % 256 ∧ instr.icode % 256 ≤ I_POPQ

/-- The membership test of the breakpoint list holding the single address 0. -/
def breakpointAt0 : Nat → Nat := fun a => if a = 0 then 1 else 0

/-! ## Basic facts -/

set_option maxRecDepth 100000 in
theorem hi_nibble_eq (b : Nat) : ((b % 256) &&& 0xf0) >>> 4 = b % 256 / 16 := by
  have h : ∀ c < 256, (c &&& 0xf0) >>> 4 = c / 16 := by decide
  exact h _ (Nat.mod_lt _ (by norm_num))

theorem lo_nibble_eq (b : Nat) : (b % 256) &&& 0xf = b % 256 % 16 := by
  have h := Nat.and_pow_two_sub_one_eq_mod (b % 256) 4
  simp at h
  rw [h]

theorem memReadByte_of_le (s : machine_state_t) (a v : Nat) (h : a ≤ s.programSize) :
    memReadByte s a v = (1, s.programMap a % 256) := by
  simp [memReadByte, isValidAddress, h]

theorem memReadByte_of_gt (s : machine_state_t) (a v : Nat) (h : s.programSize < a) :
    memReadByte s a v = (0, v) := by
  simp [memReadByte, isValidAddress, Nat.not_le.mpr h]

theorem opcodeNibble_lt (s : machine_state_t) : opcodeNibble s < 16 := by
  unfold opcodeNibble; omega

theorem functionNibble_lt (s : machine_state_t) : functionNibble s < 16 := by
  unfold functionNibble; omega

/-! ## Executor: instructions that are not executed -/

theorem executeInstruction_not_executed (s : machine_state_t) (instr : y86_instruction_t)
    (h : instr.icode = I_HALT ∨ instr.icode = I_INVALID ∨ instr.icode = I_TOO_SHORT) :
    executeInstruction s instr = some (0, { s with programCounter := instr.valP }) := by
  unfold executeInstruction
  rcases h with h | h | h <;> rw [h] <;>
    simp [I_HALT, I_INVALID, I_TOO_SHORT, I_RRMVXX, I_IRMOVQ, I_RMMOVQ, I_MRMOVQ, I_OPQ,
      I_JXX, I_CALL, I_RET, I_PUSHQ, I_POPQ]

/-- C1: on the image `jumpToHaltImage`, decoding and executing the jump at 0 brings the
program counter to 10, where HALT is decoded into the same record (its `valP` still 9, the
jump's); `executeInstruction` on that HALT returns 0 and leaves the program counter at 9,
not at 10. -/
theorem C1_halt_moves_program_counter :
    ∃ i1 s1 i2 s2,
      fetchInstruction zeroUninit (loadImage jumpToHaltImage 0) zeroInstruction = (1, i1) ∧
      executeInstruction (loadImage jumpToHaltImage 0) i1 = some (1, s1) ∧
      s1.programCounter = 10 ∧
      fetchInstruction zeroUninit s1 i1 = (1, i2) ∧
      i2.icode = I_HALT ∧
      executeInstruction s1 i2 = some (0, s2) ∧
      s2.programCounter = 9 :=
  ⟨_, _, _, _, rfl, rfl, rfl, rfl, rfl, rfl, rfl⟩

/-! ## Decoder: next address -/

/-- C2: when `fetchInstruction` returns 1 with an opcode other than HALT, the decoded
`location` is the program counter `a` and `valP` is `a` plus the encoded length, as
`uint64_t` sums: `a+1` for RETURN (and for opcode nibble 1), `a+2` for MOVE-COND, ALU-OP,
PUSH and POP, `a+9` for JUMP-COND and CALL, `a+10` for SET-IMMEDIATE, STORE-INDIRECT and
LOAD-INDIRECT; and the opcode is one of these. -/
theorem C2_next_address (uninit : Nat → Nat) (s : machine_state_t)
    (instr i : y86_instruction_t) (hfetch : fetchInstruction uninit s instr = (1, i))
    (hne : i.icode ≠ I_HALT) :
    i.location = s.programCounter ∧
    (i.icode = I_NOP ∨ i.icode = I_RET → i.valP = (s.programCounter + 1) % U64) ∧
    (i.icode = I_RRMVXX ∨ i.icode = I_OPQ ∨ i.icode = I_PUSHQ ∨ i.icode = I_POPQ →
      i.valP = (s.programCounter + 2) % U64) ∧
    (i.icode = I_JXX ∨ i.icode = I_CALL → i.valP = (s.programCounter + 9) % U64) ∧
    (i.icode = I_IRMOVQ ∨ i.icode = I_RMMOVQ ∨ i.icode = I_MRMOVQ →
      i.valP = (s.programCounter + 10) % U64) ∧
    (I_NOP ≤ i.icode ∧ i.icode ≤ I_POPQ) := by
  unfold fetchInstruction fetchInstruction_body fetchInstruction_registers
    fetchInstruction_valC at hfetch
  by_cases hread : s.programCounter ≤ s.programSize
  · simp only [memReadByte_of_le s _ _ hread, hi_nibble_eq, lo_nibble_eq] at hfetch
    have ho := opcodeNibble_lt s
    unfold opcodeNibble at ho
    generalize s.programMap s.programCounter % 256 / 16 = op at *
    generalize s.programMap s.programCounter % 256 % 16 = fn at *
    simp only [I_POPQ, I_IRMOVQ, I_OPQ, I_JXX, C_G, I_HALT, C_NC, I_RRMVXX, I_RMMOVQ,
      I_MRMOVQ, I_PUSHQ, I_CALL, R_NONE, I_INVALID, I_TOO_SHORT, I_NOP, I_RET] at *
    interval_cases op <;> simp at hfetch <;> split_ifs at hfetch <;>
      simp at hfetch <;> subst hfetch <;> simp at hne ⊢
  · simp [memReadByte_of_gt s _ _ (Nat.not_le.mp hread)] at hfetch

/-- Witness of C2: the 10-byte SET-IMMEDIATE at address 0 decodes with `valP = 10`. -/
theorem C2_next_address_witness :
    fetchInstruction zeroUninit (loadImage [0x30, 0xF0, 5, 0, 0, 0, 0, 0, 0, 0, 0] 0)
        zeroInstruction =
      (1, { icode := 3, ifun := 0, rA := 15, rB := 0, valC := 5, valP := 10, location := 0 }) ∧
    (10 : Nat) = ((loadImage [0x30, 0xF0, 5, 0, 0, 0, 0, 0, 0, 0, 0] 0).programCounter + 10) %
      U64 :=
  ⟨by decide,
    (C2_next_address zeroUninit (loadImage [0x30, 0xF0, 5, 0, 0, 0, 0, 0, 0, 0, 0] 0)
      zeroInstruction
      { icode := 3, ifun := 0, rA := 15, rB := 0, valC := 5, valP := 10, location := 0 }
      (by decide) (by decide)).2.2.2.2.1 (Or.inl (by decide))⟩

/-! ## Decoder: validity rules -/

/-- C3: at a readable program counter, an opcode nibble above POP, or a function nibble
above GREATER for SET-IMMEDIATE, ALU-OP and JUMP-COND, or a nonzero function nibble for
any other opcode, makes `fetchInstruction` return 0 with opcode INVALID. -/
theorem C3_function_nibble_invalid (uninit : Nat → Nat) (s : machine_state_t)
    (instr : y86_instruction_t) (hread : s.programCounter ≤ s.programSize)
    (hbad : I_POPQ < opcodeNibble s ∨
      ((opcodeNibble s = I_IRMOVQ ∨ opcodeNibble s = I_OPQ ∨ opcodeNibble s = I_JXX) ∧
        C_G < functionNibble s) ∨
      (¬ (opcodeNibble s = I_IRMOVQ ∨ opcodeNibble s = I_OPQ ∨ opcodeNibble s = I_JXX) ∧
        functionNibble s ≠ 0)) :
    (fetchInstruction uninit s instr).1 = 0 ∧
      (fetchInstruction uninit s instr).2.icode = I_INVALID := by
  unfold fetchInstruction
  simp only [memReadByte_of_le s _ _ hread, hi_nibble_eq, lo_nibble_eq]
  have ho := opcodeNibble_lt s
  have hf := functionNibble_lt s
  unfold opcodeNibble at hbad ho
  unfold functionNibble at hbad hf
  generalize s.programMap s.programCounter % 256 / 16 = op at *
  generalize s.programMap s.programCounter % 256 % 16 = fn at *
  simp only [I_POPQ, I_IRMOVQ, I_OPQ, I_JXX, C_G, I_HALT, C_NC] at *
  rcases hbad with h | ⟨h1, h2⟩ | ⟨h1, h2⟩
  · simp [Nat.not_le.mpr h]
  · have : ¬ fn ≤ 6 := by omega
    by_cases hop : op ≤ 11 <;> simp [hop, h1, this]
  · by_cases hop : op ≤ 11 <;> simp [hop, h1, h2]

/-- Witness of C3: a MOVE-COND byte `0x21` (function nibble 1) decodes as INVALID. -/
theorem C3_function_nibble_invalid_witness :
    (loadImage [0x21, 0x01] 0).programCounter ≤ (loadImage [0x21, 0x01] 0).programSize ∧
    (fetchInstruction zeroUninit (loadImage [0x21, 0x01] 0) zeroInstruction).1 = 0 ∧
    (fetchInstruction zeroUninit (loadImage [0x21, 0x01] 0) zeroInstruction).2.icode =
      I_INVALID :=
  ⟨by decide,
    C3_function_nibble_invalid zeroUninit (loadImage [0x21, 0x01] 0) zeroInstruction
      (by decide) (by decide)⟩

/-- C4: when the first byte passes the opcode and function-nibble checks and the register
byte is readable, MOVE-COND through ALU-OP with `register_b` NONE, SET-IMMEDIATE with
`register_a` not NONE, and MOVE-COND, STORE-INDIRECT, LOAD-INDIRECT, ALU-OP with
`register_a` NONE decode as INVALID (return 0); PUSH and POP decode successfully whatever
the register byte, its high nibble stored as `register_a` and its low one as
`register_b`. -/
theorem C4_register_checks (uninit : Nat → Nat) (s : machine_state_t)
    (instr : y86_instruction_t) (hread : s.programCounter ≤ s.programSize)
    (hop : opcodeNibble s ≤ I_POPQ)
    (hfn : if opcodeNibble s = I_IRMOVQ ∨ opcodeNibble s = I_OPQ ∨ opcodeNibble s = I_JXX
      then functionNibble s ≤ C_G else functionNibble s = C_NC)
    (hreg : (s.programCounter + 1) % U64 ≤ s.programSize) :
    (I_RRMVXX ≤ opcodeNibble s ∧ opcodeNibble s ≤ I_OPQ → registerByte s % 16 = R_NONE →
      (fetchInstruction uninit s instr).1 = 0 ∧
        (fetchInstruction uninit s instr).2.icode = I_INVALID) ∧
    (opcodeNibble s = I_IRMOVQ → registerByte s / 16 ≠ R_NONE →
      (fetchInstruction uninit s instr).1 = 0 ∧
        (fetchInstruction uninit s instr).2.icode = I_INVALID) ∧
    (opcodeNibble s = I_RRMVXX ∨ opcodeNibble s = I_RMMOVQ ∨ opcodeNibble s = I_MRMOVQ ∨
        opcodeNibble s = I_OPQ → registerByte s / 16 = R_NONE →
      (fetchInstruction uninit s instr).1 = 0 ∧
        (fetchInstruction uninit s instr).2.icode = I_INVALID) ∧
    (opcodeNibble s = I_PUSHQ ∨ opcodeNibble s = I_POPQ →
      (fetchInstruction uninit s instr).1 = 1 ∧
        (fetchInstruction uninit s instr).2.icode = opcodeNibble s ∧
        (fetchInstruction uninit s instr).2.rA = registerByte s / 16 ∧
        (fetchInstruction uninit s instr).2.rB = registerByte s % 16) := by
  unfold fetchInstruction fetchInstruction_body fetchInstruction_registers
    fetchInstruction_valC
  simp only [memReadByte_of_le s _ _ hread, hi_nibble_eq, lo_nibble_eq]
  have ho := opcodeNibble_lt s
  have hf := functionNibble_lt s
  have hr : registerByte s < 256 := by unfold registerByte; omega
  unfold opcodeNibble at hop hfn ho ⊢
  unfold functionNibble at hfn hf
  generalize s.programMap s.programCounter % 256 / 16 = op at *
  generalize s.programMap s.programCounter % 256 % 16 = fn at *
  simp only [I_POPQ, I_IRMOVQ, I_OPQ, I_JXX, C_G, I_HALT, C_NC, I_RRMVXX, I_RMMOVQ,
    I_MRMOVQ, I_PUSHQ, I_CALL, R_NONE, I_INVALID] at *
  have hrd := memReadByte_of_le s _ 0 hreg
  unfold registerByte at hr ⊢
  refine ⟨?_, ?_, ?_, ?_⟩
  · rintro ⟨h1, h2⟩ h3
    interval_cases op <;> simp_all [hi_nibble_eq, lo_nibble_eq]
  · rintro h1 h3
    subst h1
    simp_all [hi_nibble_eq, lo_nibble_eq]
  · rintro h1 h3
    rcases h1 with h1 | h1 | h1 | h1 <;> subst h1 <;> simp_all [hi_nibble_eq, lo_nibble_eq]
  · rintro h1
    rcases h1 with h1 | h1 <;> subst h1 <;> simp_all [hi_nibble_eq, lo_nibble_eq]

/-- Witness of C4: PUSH with register byte `0xFF` (both nibbles NONE) decodes
successfully with `register_a = register_b = 0xF`. -/
theorem C4_register_checks_witness :
    opcodeNibble (loadImage [0xA0, 0xFF] 0) = I_PUSHQ ∧
    (fetchInstruction zeroUninit (loadImage [0xA0, 0xFF] 0) zeroInstruction).1 = 1 ∧
    (fetchInstruction zeroUninit (loadImage [0xA0, 0xFF] 0) zeroInstruction).2.icode =
      opcodeNibble (loadImage [0xA0, 0xFF] 0) ∧
    (fetchInstruction zeroUninit (loadImage [0xA0, 0xFF] 0) zeroInstruction).2.rA =
      registerByte (loadImage [0xA0, 0xFF] 0) / 16 ∧
    (fetchInstruction zeroUninit (loadImage [0xA0, 0xFF] 0) zeroInstruction).2.rB =
      registerByte (loadImage [0xA0, 0xFF] 0) % 16 :=
  ⟨by decide,
    (C4_register_checks zeroUninit (loadImage [0xA0, 0xFF] 0) zeroInstruction
      (by decide) (by decide) (by decide) (by decide)).2.2.2 (Or.inl (by decide))⟩

/-! ## Decoder: immediates -/

/-- C5: in the 10-byte image `jmp 9; halt` the immediate of the jump is readable and is
9, a valid address (`9 <= 10`), yet `fetchInstruction` returns 0 with opcode INVALID,
whatever the record and the uninitialised locals held. -/
theorem C5_jump_near_end_invalid : ∀ (uninit : Nat → Nat) (instr : y86_instruction_t),
    memReadQuadLE uninit (loadImage [0x70, 9, 0, 0, 0, 0, 0, 0, 0, 0x00] 0) 1 0 = (1, 9) ∧
    isValidAddress 9 (loadImage [0x70, 9, 0, 0, 0, 0, 0, 0, 0, 0x00] 0).programSize = 1 ∧
    (fetchInstruction uninit (loadImage [0x70, 9, 0, 0, 0, 0, 0, 0, 0, 0x00] 0) instr).1 = 0 ∧
    (fetchInstruction uninit (loadImage [0x70, 9, 0, 0, 0, 0, 0, 0, 0, 0x00] 0) instr).2.icode
      = I_INVALID := by
  intro uninit instr
  have h1 : memReadQuadLE uninit (loadImage [0x70, 9, 0, 0, 0, 0, 0, 0, 0, 0x00] 0) 1 0
      = (1, 9) := by
    simp [memReadQuadLE, memReadQuadLE_loop, memReadByte, isValidAddress, loadImage,
      shlIntToU64, U64]
  have hb : memReadByte (loadImage [0x70, 9, 0, 0, 0, 0, 0, 0, 0, 0x00] 0) 0 0
      = (1, 0x70) := by decide
  have e1 : (0x70 &&& 0xf0) >>> 4 = 7 := by decide
  have e2 : 0x70 &&& 0xf = 0 := by decide
  have hpc : (loadImage [0x70, 9, 0, 0, 0, 0, 0, 0, 0, 0x00] 0).programCounter = 0 := rfl
  have hsz : (loadImage [0x70, 9, 0, 0, 0, 0, 0, 0, 0, 0x00] 0).programSize = 10 := rfl
  refine ⟨h1, by decide, ?_, ?_⟩ <;>
  simp [fetchInstruction, fetchInstruction_body, fetchInstruction_registers,
    fetchInstruction_valC, hpc, hb, e1, e2, h1, hsz, isValidAddress, U64,
    I_POPQ, I_IRMOVQ, I_OPQ, I_JXX, C_G, I_HALT, C_NC, I_RRMVXX, I_RMMOVQ,
    I_MRMOVQ, I_PUSHQ, I_CALL, R_NONE, I_INVALID, I_TOO_SHORT, I_NOP, I_RET]

/-- C6: the encoding of SET-IMMEDIATE of `v = 0x80000000` into register 0, placed at
address 0 of an 11-byte image, decodes successfully as SET-IMMEDIATE into register 0, but
with immediate `0xFFFFFFFF80000000`, not `v`. -/
theorem C6_set_immediate_not_round_trip :
    ∀ (uninit : Nat → Nat) (instr : y86_instruction_t),
    (fetchInstruction uninit (loadImage (encodeSetImmediate 0 0x80000000 ++ [0x00]) 0) instr).1
      = 1 ∧
    (fetchInstruction uninit (loadImage (encodeSetImmediate 0 0x80000000 ++ [0x00]) 0)
      instr).2.icode = I_IRMOVQ ∧
    (fetchInstruction uninit (loadImage (encodeSetImmediate 0 0x80000000 ++ [0x00]) 0)
      instr).2.rB = 0 ∧
    (fetchInstruction uninit (loadImage (encodeSetImmediate 0 0x80000000 ++ [0x00]) 0)
      instr).2.valC = 0xFFFFFFFF80000000 := by
  intro uninit instr
  have himg : encodeSetImmediate 0 0x80000000 ++ [0x00] =
      [0x30, 0xF0, 0, 0, 0, 0x80, 0, 0, 0, 0, 0] := by decide
  rw [himg]
  have h1 : memReadQuadLE uninit (loadImage [0x30, 0xF0, 0, 0, 0, 0x80, 0, 0, 0, 0, 0] 0) 2 0
      = (1, 0xFFFFFFFF80000000) := by
    simp [memReadQuadLE, memReadQuadLE_loop, memReadByte, isValidAddress, loadImage,
      shlIntToU64, U64]
  have hb : memReadByte (loadImage [0x30, 0xF0, 0, 0, 0, 0x80, 0, 0, 0, 0, 0] 0) 0 0
      = (1, 0x30) := by decide
  have hb2 : memReadByte (loadImage [0x30, 0xF0, 0, 0, 0, 0x80, 0, 0, 0, 0, 0] 0) 1 0
      = (1, 0xF0) := by decide
  have e1 : (0x30 &&& 0xf0) >>> 4 = 3 := by decide
  have e2 : 0x30 &&& 0xf = 0 := by decide
  have e3 : (0xF0 &&& 0xf0) >>> 4 = 15 := by decide
  have e4 : 0xF0 &&& 0xf = 0 := by decide
  have hpc : (loadImage [0x30, 0xF0, 0, 0, 0, 0x80, 0, 0, 0, 0, 0] 0).programCounter = 0 :=
    rfl
  have hsz : (loadImage [0x30, 0xF0, 0, 0, 0, 0x80, 0, 0, 0, 0, 0] 0).programSize = 11 := rfl
  refine ⟨?_, ?_, ?_, ?_⟩ <;>
  simp [fetchInstruction, fetchInstruction_body, fetchInstruction_registers,
    fetchInstruction_valC, hpc, hb, hb2, e1, e2, e3, e4, h1, hsz, isValidAddress, U64,
    I_POPQ, I_IRMOVQ, I_OPQ, I_JXX, C_G, I_HALT, C_NC, I_RRMVXX, I_RMMOVQ,
    I_MRMOVQ, I_PUSHQ, I_CALL, R_NONE, I_INVALID, I_TOO_SHORT, I_NOP, I_RET]

/-! ## Memory accessors -/

/-- C7: on a 9-byte image whose bytes 0..7 are `00 00 00 80 00 00 00 00` (little-endian
value `0x80000000`), `memReadQuadLE` at address 0 returns 1 and stores
`0xFFFFFFFF80000000`. -/
theorem C7_read_quad_sign_extends : ∀ (uninit : Nat → Nat) (value : Nat),
    0 + 7 < (loadImage [0, 0, 0, 0x80, 0, 0, 0, 0, 0] 0).programSize ∧
    memReadQuadLE uninit (loadImage [0, 0, 0, 0x80, 0, 0, 0, 0, 0] 0) 0 value =
      (1, 0xFFFFFFFF80000000) ∧
    littleEndianQuad (loadImage [0, 0, 0, 0x80, 0, 0, 0, 0, 0] 0) 0 = 0x80000000 := by
  intro uninit value
  refine ⟨by decide, ?_, by decide⟩
  simp [memReadQuadLE, memReadQuadLE_loop, memReadByte, isValidAddress, loadImage,
    shlIntToU64, U64]

/-- C8: on a 9-byte image of zeros, `memWriteQuadLE(0, 0x0100000000000001)` returns 1 and
leaves `memory[0] = 0xFF` and `memory[7] = 0`, where the bytes 0 and 7 of the value are
both 1; reading the quad back gives `0xFF`, not the value written. -/
theorem C8_write_quad_wrong_bytes : ∀ (uninit : Nat → Nat) (value : Nat),
    0 + 7 < (loadImage [0, 0, 0, 0, 0, 0, 0, 0, 0] 0).programSize ∧
    (memWriteQuadLE (loadImage [0, 0, 0, 0, 0, 0, 0, 0, 0] 0) 0 0x0100000000000001).1 = 1 ∧
    (memWriteQuadLE (loadImage [0, 0, 0, 0, 0, 0, 0, 0, 0] 0) 0
      0x0100000000000001).2.programMap 0 = 0xFF ∧
    (0x0100000000000001 >>> (8 * 0)) &&& 0xFF = 1 ∧
    (memWriteQuadLE (loadImage [0, 0, 0, 0, 0, 0, 0, 0, 0] 0) 0
      0x0100000000000001).2.programMap 7 = 0 ∧
    (0x0100000000000001 >>> (8 * 7)) &&& 0xFF = 1 ∧
    memReadQuadLE uninit
      (memWriteQuadLE (loadImage [0, 0, 0, 0, 0, 0, 0, 0, 0] 0) 0 0x0100000000000001).2 0 value
      = (1, 0xFF) := by
  intro uninit value
  refine ⟨by decide, by decide, by decide, by decide, by decide, by decide, ?_⟩
  simp [memReadQuadLE, memReadQuadLE_loop, memWriteQuadLE, memWriteQuadLE_loop, memReadByte,
    isValidAddress, loadImage, shlIntToU64, U64, Function.update]

theorem accessors_fail_above_size (uninit : Nat → Nat) (s : machine_state_t) (a v : Nat)
    (h : s.programSize < a) :
    memReadByte s a v = (0, v) ∧ memWriteByte s a v = (0, s) ∧
    memReadQuadLE uninit s a v = (0, v) ∧ memWriteQuadLE s a v = (0, s) := by
  simp [memReadByte, memWriteByte, memReadQuadLE, memWriteQuadLE, isValidAddress,
    Nat.not_le.mpr h]

/-- C9: on the 10-byte image `1..10`, the quad accessors at address 5 (span 5..12, past
the size 10) both return 1; `memWriteQuadLE(5, 0x010101010101)` changes `memory[5]` from
6 to `0xFF` and the byte at offset 10, outside the image, from 0 to `0xFF`. -/
theorem C9_quad_span_past_size_succeeds : ∀ (uninit : Nat → Nat) (value : Nat),
    (loadImage [1, 2, 3, 4, 5, 6, 7, 8, 9, 10] 0).programSize < 5 + 7 ∧
    (memReadQuadLE uninit (loadImage [1, 2, 3, 4, 5, 6, 7, 8, 9, 10] 0) 5 value).1 = 1 ∧
    (memWriteQuadLE (loadImage [1, 2, 3, 4, 5, 6, 7, 8, 9, 10] 0) 5 0x010101010101).1 = 1 ∧
    (loadImage [1, 2, 3, 4, 5, 6, 7, 8, 9, 10] 0).programMap 5 = 6 ∧
    (memWriteQuadLE (loadImage [1, 2, 3, 4, 5, 6, 7, 8, 9, 10] 0) 5
      0x010101010101).2.programMap 5 = 0xFF ∧
    (loadImage [1, 2, 3, 4, 5, 6, 7, 8, 9, 10] 0).programMap 10 = 0 ∧
    (memWriteQuadLE (loadImage [1, 2, 3, 4, 5, 6, 7, 8, 9, 10] 0) 5
      0x010101010101).2.programMap 10 = 0xFF := by
  intro uninit value
  refine ⟨by decide, ?_, by decide, by decide, by decide, by decide, by decide⟩
  simp [memReadQuadLE, isValidAddress, loadImage]

/-- C10: with a 1-byte image and the program counter equal to the size, `memReadByte` at
the size returns 1, and `fetchInstruction` returns 1 with the opcode of the byte found
right after the image: HALT when that byte is `0x00`, RETURN when it is `0x90` (same image),
never TOO-SHORT. -/
theorem C10_fetch_at_size_reads_past_image :
    ∀ (uninit : Nat → Nat) (instr : y86_instruction_t) (value : Nat),
    (loadImage [0x00] 1).programCounter = (loadImage [0x00] 1).programSize ∧
    memReadByte (loadImage [0x00] 1) (loadImage [0x00] 1).programSize value = (1, 0) ∧
    (fetchInstruction uninit (loadImage [0x00] 1) instr).1 = 1 ∧
    (fetchInstruction uninit (loadImage [0x00] 1) instr).2.icode = I_HALT ∧
    (∀ a, a < (loadImage [0x00] 1).programSize →
      (withByteAfterImage (loadImage [0x00] 1) 0x90).programMap a =
        (loadImage [0x00] 1).programMap a) ∧
    (fetchInstruction uninit (withByteAfterImage (loadImage [0x00] 1) 0x90) instr).2.icode =
      I_RET := by
  intro uninit instr value
  have hb : ∀ v, memReadByte (loadImage [0x00] 1) 1 v = (1, 0) := by
    intro v; simp [memReadByte, isValidAddress, loadImage]
  have hb2 : ∀ v, memReadByte (withByteAfterImage (loadImage [0x00] 1) 0x90) 1 v
      = (1, 0x90) := by
    intro v; simp [memReadByte, isValidAddress, loadImage, withByteAfterImage]
  have e1 : (0x90 &&& 0xf0) >>> 4 = 9 := by decide
  have e2 : 0x90 &&& 0xf = 0 := by decide
  have hpc : (loadImage [0x00] 1).programCounter = 1 := rfl
  have hpc2 : (withByteAfterImage (loadImage [0x00] 1) 0x90).programCounter = 1 := rfl
  have hsz : (loadImage [0x00] 1).programSize = 1 := rfl
  refine ⟨rfl, ?_, ?_, ?_, ?_, ?_⟩
  · rw [hsz]; exact hb value
  · simp [fetchInstruction, fetchInstruction_body, fetchInstruction_registers,
      fetchInstruction_valC, hpc, hb,
      I_POPQ, I_IRMOVQ, I_OPQ, I_JXX, C_G, I_HALT, C_NC, I_RRMVXX, I_RMMOVQ,
      I_MRMOVQ, I_PUSHQ, I_CALL, R_NONE, I_INVALID, I_TOO_SHORT, I_NOP, I_RET]
  · simp [fetchInstruction, fetchInstruction_body, fetchInstruction_registers,
      fetchInstruction_valC, hpc, hb,
      I_POPQ, I_IRMOVQ, I_OPQ, I_JXX, C_G, I_HALT, C_NC, I_RRMVXX, I_RMMOVQ,
      I_MRMOVQ, I_PUSHQ, I_CALL, R_NONE, I_INVALID, I_TOO_SHORT, I_NOP, I_RET]
  · intro a ha
    rw [hsz] at ha
    have : a = 0 := by omega
    subst this
    decide
  · simp [fetchInstruction, fetchInstruction_body, fetchInstruction_registers,
      fetchInstruction_valC, hpc2, hb2, e1, e2,
      I_POPQ, I_IRMOVQ, I_OPQ, I_JXX, C_G, I_HALT, C_NC, I_RRMVXX, I_RMMOVQ,
      I_MRMOVQ, I_PUSHQ, I_CALL, R_NONE, I_INVALID, I_TOO_SHORT, I_NOP, I_RET]

/-! ## Decoder: what a decode determines -/

theorem memReadByte_congr (s t : machine_state_t) (hm : s.programMap = t.programMap)
    (hs : s.programSize = t.programSize) (a v : Nat) :
    memReadByte s a v = memReadByte t a v := by
  simp [memReadByte, hm, hs]

theorem memReadQuadLE_loop_congr (uninit : Nat → Nat) (s t : machine_state_t)
    (hm : s.programMap = t.programMap) (hs : s.programSize = t.programSize) (a n v : Nat) :
    memReadQuadLE_loop uninit s a n v = memReadQuadLE_loop uninit t a n v := by
  induction n generalizing v with
  | zero => rfl
  | succ n ih => simp only [memReadQuadLE_loop, memReadByte_congr s t hm hs, ih]

theorem memReadQuadLE_congr (uninit : Nat → Nat) (s t : machine_state_t)
    (hm : s.programMap = t.programMap) (hs : s.programSize = t.programSize) (a v : Nat) :
    memReadQuadLE uninit s a v = memReadQuadLE uninit t a v := by
  simp [memReadQuadLE, memReadQuadLE_loop_congr uninit s t hm hs, hs]

theorem fetchInstruction_congr (uninit : Nat → Nat) (s t : machine_state_t)
    (hm : s.programMap = t.programMap) (hs : s.programSize = t.programSize)
    (hp : s.programCounter = t.programCounter) (instr : y86_instruction_t) :
    fetchInstruction uninit s instr = fetchInstruction uninit t instr := by
  have h1 : ∀ c i, fetchInstruction_valC uninit s c i = fetchInstruction_valC uninit t c i := by
    intro c i
    simp only [fetchInstruction_valC, memReadQuadLE_congr uninit s t hm hs, hs]
  have h2 : ∀ c i, fetchInstruction_registers uninit s c i =
      fetchInstruction_registers uninit t c i := by
    intro c i
    simp only [fetchInstruction_registers, memReadByte_congr s t hm hs, h1]
  have h3 : ∀ c i, fetchInstruction_body uninit s c i = fetchInstruction_body uninit t c i := by
    intro c i
    simp only [fetchInstruction_body, h2, hp]
  simp only [fetchInstruction, memReadByte_congr s t hm hs, h3, hp]

theorem fetch_ret_same_state (uninit : Nat → Nat) (s : machine_state_t)
    (i1 i2 : y86_instruction_t) :
    (fetchInstruction uninit s i1).1 = (fetchInstruction uninit s i2).1 ∧
    (fetchInstruction uninit s i1).2.icode = (fetchInstruction uninit s i2).2.icode := by
  unfold fetchInstruction fetchInstruction_body fetchInstruction_registers
    fetchInstruction_valC
  by_cases hread : s.programCounter ≤ s.programSize
  · simp only [memReadByte_of_le s _ _ hread, hi_nibble_eq, lo_nibble_eq]
    have ho := opcodeNibble_lt s
    unfold opcodeNibble at ho
    generalize s.programMap s.programCounter % 256 / 16 = op at *
    generalize s.programMap s.programCounter % 256 % 16 = fn at *
    simp only [I_POPQ, I_IRMOVQ, I_OPQ, I_JXX, C_G, I_HALT, C_NC, I_RRMVXX, I_RMMOVQ,
      I_MRMOVQ, I_PUSHQ, I_CALL, R_NONE, I_INVALID, I_TOO_SHORT, I_NOP, I_RET] at *
    interval_cases op <;> simp <;> split_ifs <;> simp
  · simp [memReadByte_of_gt s _ _ (Nat.not_le.mp hread), hread]

theorem fetch_regs_same_state (uninit : Nat → Nat) (s : machine_state_t)
    (i1 i2 : y86_instruction_t) (hread : s.programCounter ≤ s.programSize) :
    (fetchInstruction uninit s i1).2.ifun = (fetchInstruction uninit s i2).2.ifun ∧
    (fetchInstruction uninit s i1).2.rA = (fetchInstruction uninit s i2).2.rA ∧
    (fetchInstruction uninit s i1).2.rB = (fetchInstruction uninit s i2).2.rB ∧
    (fetchInstruction uninit s i1).2.location = (fetchInstruction uninit s i2).2.location := by
  unfold fetchInstruction fetchInstruction_body fetchInstruction_registers
    fetchInstruction_valC
  simp only [memReadByte_of_le s _ _ hread, hi_nibble_eq, lo_nibble_eq]
  have ho := opcodeNibble_lt s
  unfold opcodeNibble at ho
  generalize s.programMap s.programCounter % 256 / 16 = op at *
  generalize s.programMap s.programCounter % 256 % 16 = fn at *
  simp only [I_POPQ, I_IRMOVQ, I_OPQ, I_JXX, C_G, I_HALT, C_NC, I_RRMVXX, I_RMMOVQ,
    I_MRMOVQ, I_PUSHQ, I_CALL, R_NONE, I_INVALID, I_TOO_SHORT, I_NOP, I_RET] at *
  interval_cases op <;> simp <;> split_ifs <;> simp

theorem fetch_valP_same_state (uninit : Nat → Nat) (s : machine_state_t)
    (i1 i2 : y86_instruction_t) (h1 : (fetchInstruction uninit s i1).1 = 1)
    (h2 : (fetchInstruction uninit s i1).2.icode ≠ I_HALT) :
    (fetchInstruction uninit s i1).2.valP = (fetchInstruction uninit s i2).2.valP := by
  revert h1 h2
  unfold fetchInstruction fetchInstruction_body fetchInstruction_registers
    fetchInstruction_valC
  by_cases hread : s.programCounter ≤ s.programSize
  · simp only [memReadByte_of_le s _ _ hread, hi_nibble_eq, lo_nibble_eq]
    have ho := opcodeNibble_lt s
    unfold opcodeNibble at ho
    generalize s.programMap s.programCounter % 256 / 16 = op at *
    generalize s.programMap s.programCounter % 256 % 16 = fn at *
    simp only [I_POPQ, I_IRMOVQ, I_OPQ, I_JXX, C_G, I_HALT, C_NC, I_RRMVXX, I_RMMOVQ,
      I_MRMOVQ, I_PUSHQ, I_CALL, R_NONE, I_INVALID, I_TOO_SHORT, I_NOP, I_RET] at *
    interval_cases op <;> simp <;> split_ifs <;> simp
  · simp [memReadByte_of_gt s _ _ (Nat.not_le.mp hread), hread]

theorem fetch_valC_same_state (uninit : Nat → Nat) (s : machine_state_t)
    (i1 i2 : y86_instruction_t) (h1 : (fetchInstruction uninit s i1).1 = 1)
    (h2 : (fetchInstruction uninit s i1).2.icode = I_IRMOVQ ∨
        (fetchInstruction uninit s i1).2.icode = I_RMMOVQ ∨
        (fetchInstruction uninit s i1).2.icode = I_MRMOVQ ∨
        (fetchInstruction uninit s i1).2.icode = I_JXX ∨
        (fetchInstruction uninit s i1).2.icode = I_CALL) :
    (fetchInstruction uninit s i1).2.valC = (fetchInstruction uninit s i2).2.valC := by
  revert h1 h2
  unfold fetchInstruction fetchInstruction_body fetchInstruction_registers
    fetchInstruction_valC
  by_cases hread : s.programCounter ≤ s.programSize
  · simp only [memReadByte_of_le s _ _ hread, hi_nibble_eq, lo_nibble_eq]
    have ho := opcodeNibble_lt s
    unfold opcodeNibble at ho
    generalize s.programMap s.programCounter % 256 / 16 = op at *
    generalize s.programMap s.programCounter % 256 % 16 = fn at *
    simp only [I_POPQ, I_IRMOVQ, I_OPQ, I_JXX, C_G, I_HALT, C_NC, I_RRMVXX, I_RMMOVQ,
      I_MRMOVQ, I_PUSHQ, I_CALL, R_NONE, I_INVALID, I_TOO_SHORT, I_NOP, I_RET] at *
    interval_cases op <;> simp <;> split_ifs <;> simp
  · simp [memReadByte_of_gt s _ _ (Nat.not_le.mp hread), hread]

/-- C11, as stated, fails: decoding the HALT byte of the same machine into two records
that differ in `valP` gives two records that differ in `valP`. -/
theorem C11_decode_keeps_unassigned_fields :
    ¬ ∀ (uninit : Nat → Nat) (s t : machine_state_t) (i1 i2 : y86_instruction_t),
      s.programMap = t.programMap → s.programSize = t.programSize →
      s.programCounter = t.programCounter →
      (fetchInstruction uninit s i1).2 = (fetchInstruction uninit t i2).2 := by
  intro h
  have h1 := h zeroUninit (loadImage [0x00] 0) (loadImage [0x00] 0) zeroInstruction
    { zeroInstruction with valP := 5 } rfl rfl rfl
  revert h1
  decide

/-- C11, amended: two decodes on machines with equal memory, size and program counter
(and the same content of the uninitialised local) return the same `int` and the same
opcode; when the byte at the program counter is readable also the same function nibble,
`rA`, `rB` and `location`; the same `valP` when the decode returns 1 with an opcode other
than HALT; the same `valC` when it returns 1 with an opcode that carries an immediate. -/
theorem C11_decode_determined_fields (uninit : Nat → Nat) (s t : machine_state_t)
    (i1 i2 : y86_instruction_t) (hm : s.programMap = t.programMap)
    (hs : s.programSize = t.programSize) (hp : s.programCounter = t.programCounter) :
    (fetchInstruction uninit s i1).1 = (fetchInstruction uninit t i2).1 ∧
    (fetchInstruction uninit s i1).2.icode = (fetchInstruction uninit t i2).2.icode ∧
    (s.programCounter ≤ s.programSize →
      (fetchInstruction uninit s i1).2.ifun = (fetchInstruction uninit t i2).2.ifun ∧
      (fetchInstruction uninit s i1).2.rA = (fetchInstruction uninit t i2).2.rA ∧
      (fetchInstruction uninit s i1).2.rB = (fetchInstruction uninit t i2).2.rB ∧
      (fetchInstruction uninit s i1).2.location =
        (fetchInstruction uninit t i2).2.location) ∧
    ((fetchInstruction uninit s i1).1 = 1 → (fetchInstruction uninit s i1).2.icode ≠ I_HALT →
      (fetchInstruction uninit s i1).2.valP = (fetchInstruction uninit t i2).2.valP) ∧
    ((fetchInstruction uninit s i1).1 = 1 →
      ((fetchInstruction uninit s i1).2.icode = I_IRMOVQ ∨
        (fetchInstruction uninit s i1).2.icode = I_RMMOVQ ∨
        (fetchInstruction uninit s i1).2.icode = I_MRMOVQ ∨
        (fetchInstruction uninit s i1).2.icode = I_JXX ∨
        (fetchInstruction uninit s i1).2.icode = I_CALL) →
      (fetchInstruction uninit s i1).2.valC = (fetchInstruction uninit t i2).2.valC) := by
  rw [← fetchInstruction_congr uninit s t hm hs hp i2]
  exact ⟨(fetch_ret_same_state uninit s i1 i2).1, (fetch_ret_same_state uninit s i1 i2).2,
    fetch_regs_same_state uninit s i1 i2, fetch_valP_same_state uninit s i1 i2,
    fetch_valC_same_state uninit s i1 i2⟩

/-- Witness of C11 (amended): the SET-IMMEDIATE image decoded on two machines that differ
in their registers, into two different records, gives the same `valC`. -/
theorem C11_decode_determined_fields_witness :
    (fetchInstruction zeroUninit (loadImage [0x30, 0xF0, 5, 0, 0, 0, 0, 0, 0, 0, 0] 0)
        zeroInstruction).2.valC =
      (fetchInstruction zeroUninit
        { loadImage [0x30, 0xF0, 5, 0, 0, 0, 0, 0, 0, 0, 0] 0 with registerFile := fun _ => 7 }
        { zeroInstruction with valC := 9, valP := 5 }).2.valC :=
  (C11_decode_determined_fields zeroUninit
    (loadImage [0x30, 0xF0, 5, 0, 0, 0, 0, 0, 0, 0, 0] 0)
    { loadImage [0x30, 0xF0, 5, 0, 0, 0, 0, 0, 0, 0, 0] 0 with registerFile := fun _ => 7 }
    zeroInstruction { zeroInstruction with valC := 9, valP := 5 } rfl rfl rfl).2.2.2.2
    (by decide) (Or.inl (by decide))

/-! ## Executor: ALU-OP and JUMP-COND -/

theorem aluResult_eq_spec (f b a : Nat) (hf : f ≤ 6) (hdiv : f = 5 ∨ f = 6 → a ≠ 0) :
    aluResult f b a = some (aluSpec f b a) := by
  unfold aluResult aluSpec
  simp only [A_ADDQ, A_SUBQ, A_ANDQ, A_XORQ, A_MULQ, A_DIVQ, A_MODQ, U64]
  interval_cases f <;> simp_all
  omega

theorem setCC_bits (v : Nat) :
    (setCC v &&& 1 = 1 ↔ v = 0) ∧ (setCC v &&& 2 = 2 ↔ v / 2 ^ 31 % 2 = 1) ∧
    setCC v < 256 ∧
    (conditionHolds (setCC v) C_LE = true ↔ (setCC v &&& 2 = 2 ∨ setCC v &&& 1 = 1)) := by
  have h := Nat.and_two_pow v 31
  have ht := @Nat.testBit_to_div_mod 31 v
  unfold setCC conditionHolds
  simp only [C_LE, C_NC]
  norm_num at h ⊢
  rw [h]
  by_cases hv : v = 0
  · subst hv; simp
  · cases hb : v.testBit 31 <;> simp [hb, hv] at ht ⊢ <;> omega

theorem conditionHolds_iff_spec (cc f : Nat) (hf : f ≤ 6) :
    conditionHolds cc f = true ↔ jumpConditionSpec cc f := by
  have h2 := Nat.and_two_pow cc 1
  have h1 := Nat.and_one_is_mod cc
  unfold conditionHolds jumpConditionSpec
  simp only [C_NC, C_LE, C_L, C_E, C_NE, C_GE, C_G]
  norm_num at h2
  interval_cases f <;> simp
  rw [h2]; cases cc.testBit 1 <;> simp

/-- C12: for an ALU-OP record with function code 0..6 and registers 0..14 (the divisor
nonzero for divide and modulo), `executeInstruction` returns 1, `registerFile[rB]`
becomes `old rB op old rA` modulo 2^64, the program counter becomes `valP`, bit 0 of the
condition codes is set iff the result is 0 and bit 1 iff bit 31 of the result is set; the
LESS-EQUAL condition then holds iff one of the two bits is set. -/
theorem C12_alu_op (s : machine_state_t) (instr : y86_instruction_t)
    (hic : instr.icode = I_OPQ) (hfn : instr.ifun ≤ A_MODQ)
    (hrA : instr.rA < 15) (hrB : instr.rB < 15)
    (hdiv : instr.ifun = A_DIVQ ∨ instr.ifun = A_MODQ → s.registerFile instr.rA ≠ 0) :
    ∃ st, executeInstruction s instr = some (1, st) ∧
      st.registerFile instr.rB =
        aluSpec instr.ifun (s.registerFile instr.rB) (s.registerFile instr.rA) ∧
      st.programCounter = instr.valP ∧
      (st.conditionCodes &&& 1 = 1 ↔ st.registerFile instr.rB = 0) ∧
      (st.conditionCodes &&& 2 = 2 ↔ st.registerFile instr.rB / 2 ^ 31 % 2 = 1) ∧
      (conditionHolds st.conditionCodes C_LE = true ↔
        (st.conditionCodes &&& 2 = 2 ∨ st.conditionCodes &&& 1 = 1)) := by
  have hf : instr.ifun % 256 = instr.ifun := Nat.mod_eq_of_lt (by unfold A_MODQ at hfn; omega)
  have ha : instr.rA % 256 = instr.rA := Nat.mod_eq_of_lt (by omega)
  have hb : instr.rB % 256 = instr.rB := Nat.mod_eq_of_lt (by omega)
  have hres := aluResult_eq_spec instr.ifun (s.registerFile instr.rB) (s.registerFile instr.rA)
    hfn hdiv
  obtain ⟨c1, c2, c3, c4⟩ :=
    setCC_bits (aluSpec instr.ifun (s.registerFile instr.rB) (s.registerFile instr.rA))
  have hmod : setCC (aluSpec instr.ifun (s.registerFile instr.rB) (s.registerFile instr.rA))
      % 256 = setCC (aluSpec instr.ifun (s.registerFile instr.rB) (s.registerFile instr.rA)) :=
    Nat.mod_eq_of_lt c3
  refine ⟨{ s with
      programCounter := instr.valP
      registerFile := Function.update s.registerFile instr.rB
        (aluSpec instr.ifun (s.registerFile instr.rB) (s.registerFile instr.rA))
      conditionCodes :=
        setCC (aluSpec instr.ifun (s.registerFile instr.rB) (s.registerFile instr.rA)) % 256 },
    ?_, ?_⟩
  · unfold executeInstruction
    simp only [hic, hf, ha, hb, hres, executeInstruction_update]
    simp [I_HALT, I_INVALID, I_TOO_SHORT, I_RRMVXX, I_IRMOVQ, I_RMMOVQ, I_MRMOVQ, I_OPQ,
      I_JXX, I_CALL, I_RET, I_PUSHQ, I_POPQ]
  · simp only [Function.update_same, hmod]
    exact ⟨trivial, trivial, c1, c2, c4⟩

/-- Witness of C12: a divide of register 1 (12) by register 0 (3) on `aluState`. -/
theorem C12_alu_op_witness :
    ∃ st, executeInstruction aluState
        { icode := 6, ifun := 5, rA := 0, rB := 1, valC := 0, valP := 2, location := 0 } =
          some (1, st) ∧
      st.registerFile 1 = aluSpec 5 (aluState.registerFile 1) (aluState.registerFile 0) ∧
      st.programCounter = 2 ∧
      (st.conditionCodes &&& 1 = 1 ↔ st.registerFile 1 = 0) ∧
      (st.conditionCodes &&& 2 = 2 ↔ st.registerFile 1 / 2 ^ 31 % 2 = 1) ∧
      (conditionHolds st.conditionCodes C_LE = true ↔
        (st.conditionCodes &&& 2 = 2 ∨ st.conditionCodes &&& 1 = 1)) :=
  C12_alu_op aluState
    { icode := 6, ifun := 5, rA := 0, rB := 1, valC := 0, valP := 2, location := 0 }
    (by decide) (by decide) (by decide) (by decide) (by decide)

/-- C13: for a JUMP-COND record with function code 0..6, `executeInstruction` returns 1
and changes only the program counter, to `valC` if the condition of the function code
holds on the condition codes and to `valP` otherwise. -/
theorem C13_jump_cond (s : machine_state_t) (instr : y86_instruction_t)
    (hic : instr.icode = I_JXX) (hfn : instr.ifun ≤ C_G) (hcc : s.conditionCodes < 256) :
    executeInstruction s instr =
      some (1, { s with programCounter :=
        if jumpConditionSpec s.conditionCodes instr.ifun then instr.valC else instr.valP }) := by
  have hf : instr.ifun % 256 = instr.ifun := Nat.mod_eq_of_lt (by unfold C_G at hfn; omega)
  have hc := conditionHolds_iff_spec s.conditionCodes instr.ifun hfn
  unfold executeInstruction
  simp only [hic, hf, executeInstruction_update, Nat.mod_eq_of_lt hcc]
  simp [I_HALT, I_INVALID, I_TOO_SHORT, I_RRMVXX, I_IRMOVQ, I_RMMOVQ, I_MRMOVQ, I_OPQ,
      I_JXX, I_CALL, I_RET, I_PUSHQ, I_POPQ]
  by_cases h : jumpConditionSpec s.conditionCodes instr.ifun
  · simp [h, hc.mpr h]
  · have : conditionHolds s.conditionCodes instr.ifun = false := by
      cases hh : conditionHolds s.conditionCodes instr.ifun
      · rfl
      · exact absurd (hc.mp hh) h
    simp [h, this]

/-- Witness of C13: a LESS jump on `aluState` (Sign flag set) goes to `valC`. -/
theorem C13_jump_cond_witness :
    executeInstruction aluState
        { icode := 7, ifun := 2, rA := 15, rB := 15, valC := 40, valP := 9, location := 0 } =
      some (1,
        { aluState with
          programCounter := if jumpConditionSpec aluState.conditionCodes 2 then 40 else 9 }) :=
  C13_jump_cond aluState
    { icode := 7, ifun := 2, rA := 15, rB := 15, valC := 40, valP := 9, location := 0 }
    (by decide) (by decide) (by decide)

/-! ## Debugger: `run`, `next`, `jump` -/

theorem fetch_location_of_not_too_short (uninit : Nat → Nat) (s : machine_state_t)
    (i : y86_instruction_t) (h : (fetchInstruction uninit s i).2.icode ≠ I_TOO_SHORT) :
    (fetchInstruction uninit s i).2.location = s.programCounter := by
  revert h
  unfold fetchInstruction fetchInstruction_body fetchInstruction_registers
    fetchInstruction_valC
  by_cases hread : s.programCounter ≤ s.programSize
  · simp only [memReadByte_of_le s _ _ hread, hi_nibble_eq, lo_nibble_eq]
    have ho := opcodeNibble_lt s
    unfold opcodeNibble at ho
    generalize s.programMap s.programCounter % 256 / 16 = op at *
    generalize s.programMap s.programCounter % 256 % 16 = fn at *
    simp only [I_POPQ, I_IRMOVQ, I_OPQ, I_JXX, C_G, I_HALT, C_NC, I_RRMVXX, I_RMMOVQ,
      I_MRMOVQ, I_PUSHQ, I_CALL, R_NONE, I_INVALID, I_TOO_SHORT, I_NOP, I_RET] at *
    interval_cases op <;> simp <;> split_ifs <;> simp
  · simp [memReadByte_of_gt s _ _ (Nat.not_le.mp hread), hread]

theorem executeAndDecode_eq_some (uninit : Nat → Nat)
    (p q : machine_state_t × y86_instruction_t) (h : executeAndDecode uninit p = some q) :
    ∃ r, r ≠ 0 ∧ executeInstruction p.1 p.2 = some (r, q.1) ∧
      q.2 = (fetchInstruction uninit q.1 p.2).2 := by
  unfold executeAndDecode at h
  cases he : executeInstruction p.1 p.2 with
  | none => simp [he] at h
  | some x =>
    obtain ⟨r, st⟩ := x
    simp only [he] at h
    by_cases hr : r = 0
    · simp [hr] at h
    · simp only [hr, if_false, Option.some.injEq] at h
      subst h
      exact ⟨r, hr, rfl, rfl⟩

/-- The loop of `run` from a pair that reaches a breakpoint address after `m` successful
rounds, no stop condition holding before: it ends there after exactly `m` iterations. -/
theorem main_run_loop_reaches (hasBp uninit : Nat → Nat) (m : Nat) :
    ∀ (p q : machine_state_t × y86_instruction_t),
      executeAndDecodeN uninit m p = some q → hasBp q.1.programCounter ≠ 0 →
      (∀ j, j < m → ∃ pj, executeAndDecodeN uninit j p = some pj ∧
        hasBp pj.1.programCounter = 0 ∧ pj.2.icode ≠ I_HALT ∧ pj.2.icode ≠ I_INVALID) →
      (∀ fuel, m ≤ fuel → main_run_loop hasBp uninit fuel p.1 p.2 = outcome.finished q.1 q.2) ∧
      (∀ fuel, fuel < m → main_run_loop hasBp uninit fuel p.1 p.2 = outcome.outOfFuel) := by
  induction m with
  | zero =>
    intro p q hreach hX _
    simp only [executeAndDecodeN, Option.some.injEq] at hreach
    subst hreach
    refine ⟨?_, fun fuel h => absurd h (Nat.not_lt_zero _)⟩
    intro fuel _
    cases fuel <;> simp [main_run_loop, hX]
  | succ m ih =>
    intro p q hreach hX hbefore
    obtain ⟨p0, hp0, hb0, hh0, hi0⟩ := hbefore 0 (Nat.succ_pos m)
    simp only [executeAndDecodeN, Option.some.injEq] at hp0
    subst hp0
    simp only [executeAndDecodeN] at hreach
    cases hstep : executeAndDecode uninit p with
    | none => simp [hstep] at hreach
    | some p1 =>
      simp only [hstep] at hreach
      obtain ⟨r, hr, hex, hfe⟩ := executeAndDecode_eq_some uninit p p1 hstep
      have hrest : ∀ j, j < m → ∃ pj, executeAndDecodeN uninit j p1 = some pj ∧
          hasBp pj.1.programCounter = 0 ∧ pj.2.icode ≠ I_HALT ∧ pj.2.icode ≠ I_INVALID := by
        intro j hj
        obtain ⟨pj, hpj, h⟩ := hbefore (j + 1) (Nat.succ_lt_succ hj)
        simp only [executeAndDecodeN, hstep] at hpj
        exact ⟨pj, hpj, h⟩
      obtain ⟨ihA, ihB⟩ := ih p1 q hreach hX hrest
      constructor
      · intro fuel hfuel
        cases fuel with
        | zero => omega
        | succ fuel =>
          simp only [main_run_loop, hb0, hh0, hi0, hex, hr, ne_eq, not_false_eq_true, and_self,
            if_true, if_false]
          rw [← hfe]
          exact ihA fuel (by omega)
      · intro fuel hfuel
        cases fuel with
        | zero => simp [main_run_loop, hb0, hh0, hi0]
        | succ fuel =>
          simp only [main_run_loop, hb0, hh0, hi0, hex, hr, ne_eq, not_false_eq_true, and_self,
            if_true, if_false]
          rw [← hfe]
          exact ihB fuel (by omega)


theorem executeAndDecodeN_succ_last (uninit : Nat → Nat) (n : Nat) :
    ∀ p, executeAndDecodeN uninit (n + 1) p =
      match executeAndDecodeN uninit n p with
      | none => none
      | some q => executeAndDecode uninit q := by
  induction n with
  | zero =>
    intro p
    simp only [executeAndDecodeN]
    cases executeAndDecode uninit p <;> rfl
  | succ n ih =>
    intro p
    rw [executeAndDecodeN]
    cases hstep : executeAndDecode uninit p with
    | none => simp [executeAndDecodeN, hstep]
    | some p1 =>
      simp only []
      rw [ih p1]
      simp [executeAndDecodeN, hstep]

theorem executeAndDecodeN_is_decode (uninit : Nat → Nat) (n : Nat)
    (p q : machine_state_t × y86_instruction_t) (hn : 1 ≤ n)
    (h : executeAndDecodeN uninit n p = some q) :
    ∃ prev, q.2 = (fetchInstruction uninit q.1 prev).2 := by
  obtain ⟨m, rfl⟩ : ∃ m, n = m + 1 := ⟨n - 1, by omega⟩
  rw [executeAndDecodeN_succ_last] at h
  cases hm : executeAndDecodeN uninit m p with
  | none => simp [hm] at h
  | some pm =>
    simp only [hm] at h
    obtain ⟨r, _, _, hfe⟩ := executeAndDecode_eq_some uninit pm q h
    exact ⟨pm.2, hfe⟩

theorem executeInstruction_of_not_executable (s : machine_state_t) (i : y86_instruction_t)
    (h : ¬ executableIcode i) :
    executeInstruction s i = some (0, { s with programCounter := i.valP }) := by
  unfold executableIcode at h
  unfold executeInstruction
  simp only [I_RRMVXX, I_IRMOVQ, I_RMMOVQ, I_MRMOVQ, I_OPQ, I_JXX, I_CALL, I_RET, I_PUSHQ,
    I_POPQ] at h ⊢
  generalize i.icode % 256 = c at *
  have h2 : c ≠ 2 := by omega
  have h3 : c ≠ 3 := by omega
  have h4 : c ≠ 4 := by omega
  have h5 : c ≠ 5 := by omega
  have h6 : c ≠ 6 := by omega
  have h7 : c ≠ 7 := by omega
  have h8 : c ≠ 8 := by omega
  have h9 : c ≠ 9 := by omega
  have h10 : c ≠ 10 := by omega
  have h11 : c ≠ 11 := by omega
  simp only [h2, h3, h4, h5, h6, h7, h8, h9, h10, h11, if_false]

theorem executeInstruction_of_executable (s : machine_state_t) (i : y86_instruction_t)
    (h : executableIcode i) :
    executeInstruction s i = none ∨ ∃ st, executeInstruction s i = some (1, st) := by
  unfold executableIcode at h
  unfold executeInstruction
  simp only [I_RRMVXX, I_IRMOVQ, I_RMMOVQ, I_MRMOVQ, I_OPQ, I_JXX, I_CALL, I_RET, I_PUSHQ,
    I_POPQ, executeInstruction_update] at h ⊢
  generalize i.icode % 256 = c at *
  obtain ⟨hl, hu⟩ := h
  interval_cases c <;> simp
  · split_ifs <;> simp
  · cases aluResult (i.ifun % 256) (s.registerFile (i.rB % 256))
      (s.registerFile (i.rA % 256)) <;> simp

theorem executeInstruction_ret (s st : machine_state_t) (i : y86_instruction_t) (r : Nat)
    (h : executeInstruction s i = some (r, st)) :
    (r = 1 ∧ executableIcode i) ∨ (r = 0 ∧ ¬ executableIcode i) := by
  by_cases he : executableIcode i
  · left
    rcases executeInstruction_of_executable s i he with h1 | ⟨st1, h1⟩
    · rw [h1] at h; cases h
    · rw [h1] at h
      simp only [Option.some.injEq, Prod.mk.injEq] at h
      exact ⟨h.1.symm, he⟩
  · right
    rw [executeInstruction_of_not_executable s i he] at h
    simp only [Option.some.injEq, Prod.mk.injEq] at h
    exact ⟨h.1.symm, he⟩

theorem main_run_loop_executed_no_breakpoint (hasBp uninit : Nat → Nat) :
    ∀ (fuel : Nat) (s : machine_state_t) (i : y86_instruction_t),
      (i.location = s.programCounter ∨ ¬ executableIcode i) →
      ∀ r ∈ main_run_loop_executed hasBp uninit fuel s i, hasBp r.location = 0 := by
  intro fuel
  induction fuel with
  | zero => intro s i _ r hr; simp [main_run_loop_executed] at hr
  | succ fuel ih =>
    intro s i hinv r hr
    unfold main_run_loop_executed at hr
    by_cases hc : hasBp s.programCounter = 0 ∧ i.icode ≠ I_HALT ∧ i.icode ≠ I_INVALID
    · rw [if_pos hc] at hr
      cases hex : executeInstruction s i with
      | none => simp [hex] at hr
      | some x =>
        obtain ⟨ret, st⟩ := x
        simp only [hex] at hr
        rcases executeInstruction_ret s st i ret hex with ⟨h1, he⟩ | ⟨h0, he⟩
        · subst h1
          simp only [Nat.one_ne_zero, if_false, List.mem_cons] at hr
          have hloc : i.location = s.programCounter := by
            rcases hinv with h | h
            · exact h
            · exact absurd he h
          rcases hr with hr | hr
          · rw [hr, hloc]; exact hc.1
          · apply ih st (fetchInstruction uninit st i).2 _ r hr
            by_cases hts : (fetchInstruction uninit st i).2.icode = I_TOO_SHORT
            · right
              unfold executableIcode
              rw [hts]
              decide
            · left
              exact fetch_location_of_not_too_short uninit st i hts
        · subst h0
          simp only [if_true] at hr
          exact ih st i (Or.inr he) r hr
    · rw [if_neg hc] at hr
      simp at hr

theorem main_run_executed_no_breakpoint (hasBp uninit : Nat → Nat) (fuel : Nat)
    (s : machine_state_t) (i : y86_instruction_t) :
    ∀ r ∈ main_run_executed hasBp uninit fuel s i, hasBp r.location = 0 := by
  intro r hr
  unfold main_run_executed at hr
  cases hex : executeInstruction s i with
  | none => simp [hex] at hr
  | some x =>
    obtain ⟨ret, st⟩ := x
    simp only [hex] at hr
    by_cases h0 : ret = 0
    · simp [h0] at hr
    · rw [if_neg h0] at hr
      apply main_run_loop_executed_no_breakpoint hasBp uninit fuel st _ _ r hr
      by_cases hts : (fetchInstruction uninit st i).2.icode = I_TOO_SHORT
      · right
        unfold executableIcode
        rw [hts]
        decide
      · left
        exact fetch_location_of_not_too_short uninit st i hts

/-- C16: if `k >= 1` successful execute-and-decode rounds from the current state first
bring the program counter to an address of the breakpoint list, no HALT, INVALID or
TOO-SHORT being decoded before, then `run` ends after exactly `k - 1` iterations of its
loop (`k` instructions executed) with the state reached and, as current record, the decode
at that address; the records met before are located at their program counter, not a
breakpoint address.  And whatever the state and the breakpoint list, no record executed
by the loop of `run` is located at a breakpoint address. -/
theorem C16_run_stops_at_breakpoint (hasBp uninit : Nat → Nat) (s : machine_state_t)
    (i : y86_instruction_t) (k : Nat) (q : machine_state_t × y86_instruction_t)
    (hk : 1 ≤ k) (hreach : executeAndDecodeN uninit k (s, i) = some q)
    (hX : hasBp q.1.programCounter ≠ 0)
    (hbefore : ∀ j, 1 ≤ j → j < k → ∃ pj, executeAndDecodeN uninit j (s, i) = some pj ∧
      hasBp pj.1.programCounter = 0 ∧ pj.2.icode ≠ I_HALT ∧ pj.2.icode ≠ I_INVALID ∧
      pj.2.icode ≠ I_TOO_SHORT) :
    (∀ fuel, k - 1 ≤ fuel → main_run hasBp uninit fuel s i = outcome.finished q.1 q.2) ∧
    (∀ fuel, fuel < k - 1 → main_run hasBp uninit fuel s i = outcome.outOfFuel) ∧
    (∃ prev, q.2 = (fetchInstruction uninit q.1 prev).2) ∧
    (∀ j pj, 1 ≤ j → j < k → executeAndDecodeN uninit j (s, i) = some pj →
      pj.2.location = pj.1.programCounter ∧ hasBp pj.2.location = 0) ∧
    (∀ fuel, ∀ r ∈ main_run_executed hasBp uninit fuel s i, hasBp r.location = 0) := by
  have hexec := main_run_executed_no_breakpoint hasBp uninit
  obtain ⟨m, rfl⟩ : ∃ m, k = m + 1 := ⟨k - 1, by omega⟩
  have hdec := executeAndDecodeN_is_decode uninit (m + 1) (s, i) q hk hreach
  have hloc : ∀ j pj, 1 ≤ j → j < m + 1 → executeAndDecodeN uninit j (s, i) = some pj →
      pj.2.location = pj.1.programCounter ∧ hasBp pj.2.location = 0 := by
    intro j pj hj1 hj2 hpj
    obtain ⟨pj', hpj', hb, _, _, hts⟩ := hbefore j hj1 hj2
    rw [hpj] at hpj'
    simp only [Option.some.injEq] at hpj'
    subst hpj'
    obtain ⟨prev, hprev⟩ := executeAndDecodeN_is_decode uninit j (s, i) pj hj1 hpj
    have hl : pj.2.location = pj.1.programCounter := by
      rw [hprev]
      apply fetch_location_of_not_too_short
      rw [← hprev]
      exact hts
    exact ⟨hl, by rw [hl]; exact hb⟩
  simp only [executeAndDecodeN] at hreach
  cases hstep : executeAndDecode uninit (s, i) with
  | none => simp [hstep] at hreach
  | some p1 =>
    simp only [hstep] at hreach
    obtain ⟨r, hr, hex, hfe⟩ := executeAndDecode_eq_some uninit (s, i) p1 hstep
    have hrest : ∀ j, j < m → ∃ pj, executeAndDecodeN uninit j p1 = some pj ∧
        hasBp pj.1.programCounter = 0 ∧ pj.2.icode ≠ I_HALT ∧ pj.2.icode ≠ I_INVALID := by
      intro j hj
      obtain ⟨pj, hpj, h1, h2, h3, _⟩ := hbefore (j + 1) (by omega) (Nat.succ_lt_succ hj)
      simp only [executeAndDecodeN, hstep] at hpj
      exact ⟨pj, hpj, h1, h2, h3⟩
    obtain ⟨hA, hB⟩ := main_run_loop_reaches hasBp uninit m p1 q hreach hX hrest
    simp only at hex hfe
    refine ⟨?_, ?_, hdec, hloc, fun fuel => hexec fuel s i⟩
    · intro fuel hfuel
      simp only [main_run, hex, hr, if_false]
      rw [← hfe]
      exact hA fuel (by omega)
    · intro fuel hfuel
      simp only [main_run, hex, hr, if_false]
      rw [← hfe]
      exact hB fuel (by omega)

/-- Witness of C16: on `twoMovesImage` with a breakpoint at 20, `run` ends after one
iteration of its loop at the HALT decoded at 20. -/
theorem C16_run_stops_at_breakpoint_witness :
    main_run breakpointAt20 zeroUninit 1 twoMovesStart.1 twoMovesStart.2 =
      outcome.finished twoMovesReached.1 twoMovesReached.2 :=
  (C16_run_stops_at_breakpoint breakpointAt20 zeroUninit twoMovesStart.1 twoMovesStart.2 2
    twoMovesReached (by decide) rfl (by decide)
    (by
      intro j h1 h2
      have hj : j = 1 := by omega
      subst hj
      refine ⟨_, rfl, ?_, ?_, ?_, ?_⟩ <;> decide)).1 1 (by decide)

/-- The loop of `next` from a pair whose stack pointer first equals the saved one after
`m + 1` successful rounds, no stop condition holding before: it ends there after exactly
`m + 1` iterations. -/
theorem main_next_loop_returns (hasBp uninit : Nat → Nat) (sp : Nat) (m : Nat) :
    ∀ (p q : machine_state_t × y86_instruction_t),
      executeAndDecodeN uninit (m + 1) p = some q → q.1.registerFile R_RSP = sp →
      (∀ j, j ≤ m → ∃ pj, executeAndDecodeN uninit j p = some pj ∧
        hasBp pj.1.programCounter = 0 ∧ pj.2.icode ≠ I_HALT ∧ pj.2.icode ≠ I_INVALID) →
      (∀ j, 1 ≤ j → j ≤ m → ∃ pj, executeAndDecodeN uninit j p = some pj ∧
        pj.1.registerFile R_RSP ≠ sp) →
      (∀ fuel, m + 1 ≤ fuel →
        main_next_loop hasBp uninit sp fuel p.1 p.2 = outcome.finished q.1 q.2) ∧
      (∀ fuel, fuel < m + 1 →
        main_next_loop hasBp uninit sp fuel p.1 p.2 = outcome.outOfFuel) := by
  induction m with
  | zero =>
    intro p q hreach hsp hbefore _
    obtain ⟨p0, hp0, hb0, hh0, hi0⟩ := hbefore 0 (Nat.le_refl 0)
    simp only [executeAndDecodeN, Option.some.injEq] at hp0
    subst hp0
    simp only [executeAndDecodeN] at hreach
    cases hstep : executeAndDecode uninit p with
    | none => simp [hstep] at hreach
    | some p1 =>
      simp only [hstep, Option.some.injEq] at hreach
      subst hreach
      obtain ⟨r, hr, hex, hfe⟩ := executeAndDecode_eq_some uninit p p1 hstep
      constructor
      · intro fuel hfuel
        cases fuel with
        | zero => omega
        | succ fuel =>
          simp only [main_next_loop, hb0, hh0, hi0, hex, hr, hsp, ne_eq, not_false_eq_true,
            and_self, if_true, if_false]
          rw [← hfe]
      · intro fuel hfuel
        have : fuel = 0 := by omega
        subst this
        simp [main_next_loop, hb0, hh0, hi0]
  | succ m ih =>
    intro p q hreach hsp hbefore hne
    obtain ⟨p0, hp0, hb0, hh0, hi0⟩ := hbefore 0 (Nat.zero_le _)
    simp only [executeAndDecodeN, Option.some.injEq] at hp0
    subst hp0
    rw [executeAndDecodeN] at hreach
    cases hstep : executeAndDecode uninit p with
    | none => simp [hstep] at hreach
    | some p1 =>
      simp only [hstep] at hreach
      obtain ⟨r, hr, hex, hfe⟩ := executeAndDecode_eq_some uninit p p1 hstep
      have hrest : ∀ j, j ≤ m → ∃ pj, executeAndDecodeN uninit j p1 = some pj ∧
          hasBp pj.1.programCounter = 0 ∧ pj.2.icode ≠ I_HALT ∧ pj.2.icode ≠ I_INVALID := by
        intro j hj
        obtain ⟨pj, hpj, h⟩ := hbefore (j + 1) (Nat.succ_le_succ hj)
        rw [executeAndDecodeN] at hpj
        simp only [hstep] at hpj
        exact ⟨pj, hpj, h⟩
      have hne' : ∀ j, 1 ≤ j → j ≤ m → ∃ pj, executeAndDecodeN uninit j p1 = some pj ∧
          pj.1.registerFile R_RSP ≠ sp := by
        intro j _ hj
        obtain ⟨pj, hpj, h⟩ := hne (j + 1) (by omega) (Nat.succ_le_succ hj)
        rw [executeAndDecodeN] at hpj
        simp only [hstep] at hpj
        exact ⟨pj, hpj, h⟩
      have hsp1 : sp ≠ p1.1.registerFile R_RSP := by
        obtain ⟨pj, hpj, h⟩ := hne 1 (Nat.le_refl 1) (by omega)
        simp only [executeAndDecodeN, hstep, Option.some.injEq] at hpj
        subst hpj
        exact fun e => h e.symm
      obtain ⟨ihA, ihB⟩ := ih p1 q hreach hsp hrest hne'
      constructor
      · intro fuel hfuel
        cases fuel with
        | zero => omega
        | succ fuel =>
          simp only [main_next_loop, hb0, hh0, hi0, hex, hr, hsp1, ne_eq, not_false_eq_true,
            and_self, if_true, if_false]
          rw [← hfe]
          exact ihA fuel (by omega)
      · intro fuel hfuel
        cases fuel with
        | zero => simp [main_next_loop, hb0, hh0, hi0]
        | succ fuel =>
          simp only [main_next_loop, hb0, hh0, hi0, hex, hr, hsp1, ne_eq, not_false_eq_true,
            and_self, if_true, if_false]
          rw [← hfe]
          exact ihB fuel (by omega)

/-- C19: if the current record is a CALL and `n >= 1` successful execute-and-decode rounds
first bring the stack pointer back to its value before the command, no breakpoint address
being visited and no HALT or INVALID decoded before, then `next` ends after exactly `n`
iterations of its loop with the state reached (stack pointer restored) and, as current
record, the decode at the program counter reached. -/
theorem C19_next_over_call (hasBp uninit : Nat → Nat) (s : machine_state_t)
    (i : y86_instruction_t) (n : Nat) (q : machine_state_t × y86_instruction_t)
    (hcall : i.icode = I_CALL) (hn : 1 ≤ n)
    (hreach : executeAndDecodeN uninit n (s, i) = some q)
    (hsp : q.1.registerFile R_RSP = s.registerFile R_RSP)
    (hbefore : ∀ j, j < n → ∃ pj, executeAndDecodeN uninit j (s, i) = some pj ∧
      hasBp pj.1.programCounter = 0 ∧ pj.2.icode ≠ I_HALT ∧ pj.2.icode ≠ I_INVALID ∧
      (1 ≤ j → pj.1.registerFile R_RSP ≠ s.registerFile R_RSP)) :
    (∀ fuel, n ≤ fuel → main_next hasBp uninit fuel s i = outcome.finished q.1 q.2) ∧
    (∀ fuel, fuel < n → main_next hasBp uninit fuel s i = outcome.outOfFuel) ∧
    (∃ prev, q.2 = (fetchInstruction uninit q.1 prev).2) := by
  have hdec := executeAndDecodeN_is_decode uninit n (s, i) q hn hreach
  obtain ⟨m, rfl⟩ : ∃ m, n = m + 1 := ⟨n - 1, by omega⟩
  have h1 : ∀ j, j ≤ m → ∃ pj, executeAndDecodeN uninit j (s, i) = some pj ∧
      hasBp pj.1.programCounter = 0 ∧ pj.2.icode ≠ I_HALT ∧ pj.2.icode ≠ I_INVALID := by
    intro j hj
    obtain ⟨pj, hpj, a, b, c, _⟩ := hbefore j (by omega)
    exact ⟨pj, hpj, a, b, c⟩
  have h2 : ∀ j, 1 ≤ j → j ≤ m → ∃ pj, executeAndDecodeN uninit j (s, i) = some pj ∧
      pj.1.registerFile R_RSP ≠ s.registerFile R_RSP := by
    intro j hj1 hj
    obtain ⟨pj, hpj, _, _, _, d⟩ := hbefore j (by omega)
    exact ⟨pj, hpj, d hj1⟩
  have h := main_next_loop_returns hasBp uninit (s.registerFile R_RSP) m (s, i) q hreach hsp
    h1 h2
  simp only [main_next, hcall, ne_eq, not_true_eq_false, if_false]
  exact ⟨h.1, h.2, hdec⟩

/-- Witness of C19: on `callReturnImage`, `next` on the CALL at 0 ends after two
iterations, at the HALT decoded at 9 with the stack pointer back at 64. -/
theorem C19_next_over_call_witness :
    main_next noBreakpoints zeroUninit 2 callReturnStart.1 callReturnStart.2 =
      outcome.finished callReturnReached.1 callReturnReached.2 :=
  (C19_next_over_call noBreakpoints zeroUninit callReturnStart.1 callReturnStart.2 2
    callReturnReached (by decide) (by decide) rfl (by decide)
    (by
      intro j hj
      have hj : j = 0 ∨ j = 1 := by omega
      rcases hj with hj | hj <;> subst hj
      · refine ⟨_, rfl, ?_, ?_, ?_, ?_⟩ <;> decide
      · refine ⟨_, rfl, ?_, ?_, ?_, ?_⟩ <;> decide)).1 2 (by decide)

theorem main_run_loop_too_short (hasBp uninit : Nat → Nat) (i : y86_instruction_t)
    (hi : i.icode = I_TOO_SHORT) (hv : hasBp i.valP = 0) :
    ∀ (fuel : Nat) (s : machine_state_t), hasBp s.programCounter = 0 →
      main_run_loop hasBp uninit fuel s i = outcome.outOfFuel := by
  have hh : i.icode ≠ I_HALT := by rw [hi]; decide
  have hn : i.icode ≠ I_INVALID := by rw [hi]; decide
  intro fuel
  induction fuel with
  | zero => intro s hs; simp [main_run_loop, hs, hh, hn]
  | succ fuel ih =>
    intro s hs
    have hex := executeInstruction_not_executed s i (Or.inr (Or.inr hi))
    simp only [main_run_loop, hs, hh, hn, hex, ne_eq, not_false_eq_true, and_self, if_true]
    exact ih _ hv

/-- C17: on `truncatedImage` with no breakpoint, the first execution of `run` succeeds
and the record decoded next is TOO-SHORT; the loop of `run` then never ends: for every
number of iterations allowed, the command is still running. -/
theorem C17_run_loops_on_too_short :
    (∃ s1 i1, executeAndDecode zeroUninit
        (loadImage truncatedImage 0,
          (fetchInstruction zeroUninit (loadImage truncatedImage 0) zeroInstruction).2) =
          some (s1, i1) ∧ i1.icode = I_TOO_SHORT) ∧
    ∀ fuel, main_run noBreakpoints zeroUninit fuel (loadImage truncatedImage 0)
      (fetchInstruction zeroUninit (loadImage truncatedImage 0) zeroInstruction).2 =
        outcome.outOfFuel := by
  refine ⟨⟨_, _, rfl, rfl⟩, ?_⟩
  intro fuel
  have hex : executeInstruction (loadImage truncatedImage 0)
      (fetchInstruction zeroUninit (loadImage truncatedImage 0) zeroInstruction).2 =
      some (1, ((executeInstruction (loadImage truncatedImage 0)
        (fetchInstruction zeroUninit (loadImage truncatedImage 0) zeroInstruction).2).getD
          (0, loadImage truncatedImage 0)).2) := rfl
  rw [main_run, hex]
  simp only [Nat.one_ne_zero, if_false]
  exact main_run_loop_too_short noBreakpoints zeroUninit _ rfl rfl fuel _ rfl

/-- C18: from a program counter inside the image, `jump 0x100` on a 1-byte image leaves
the program counter at `0x100`, and `step` on `truncatedImage` (9 bytes) leaves it at 10:
both above `programSize`. -/
theorem C18_jump_leaves_memory :
    (loadImage [0x00] 0).programCounter ≤ (loadImage [0x00] 0).programSize ∧
    (∃ st instr, main_jump zeroUninit (loadImage [0x00] 0)
        (fetchInstruction zeroUninit (loadImage [0x00] 0) zeroInstruction).2 0x100 =
          outcome.finished st instr ∧
      st.programCounter = 0x100 ∧ st.programSize = 1 ∧ instr.icode = I_TOO_SHORT) ∧
    (loadImage truncatedImage 0).programCounter ≤ (loadImage truncatedImage 0).programSize ∧
    (∃ st instr, main_step zeroUninit (loadImage truncatedImage 0)
        (fetchInstruction zeroUninit (loadImage truncatedImage 0) zeroInstruction).2 =
          outcome.finished st instr ∧
      st.programCounter = 10 ∧ st.programSize = 9) :=
  ⟨by decide, ⟨_, _, rfl, rfl, rfl, rfl⟩, by decide, ⟨_, _, rfl, rfl, rfl⟩⟩

set_option maxRecDepth 20000 in
/-- C20: on `farCallImage`, the CALL at `0x100` (return address `0x109`) followed by the
RETURN at `0x40` restores the stack pointer `0x200` but leaves the program counter at 9:
the return address went through one byte of memory. -/
theorem C20_return_address_truncated :
    farCallStart.2.icode = I_CALL ∧ farCallStart.2.valP = 0x109 ∧
    8 ≤ farCallStart.1.registerFile R_RSP ∧
    farCallStart.1.registerFile R_RSP ≤ farCallStart.1.programSize ∧
    ∃ s1 i1 s2 i2, executeAndDecode zeroUninit farCallStart = some (s1, i1) ∧
      i1.icode = I_RET ∧ executeAndDecode zeroUninit (s1, i1) = some (s2, i2) ∧
      s2.registerFile R_RSP = farCallStart.1.registerFile R_RSP ∧
      s2.programCounter = 9 :=
  ⟨by decide, by decide, by decide, by decide, _, _, _, _, rfl, rfl, rfl, rfl, rfl⟩

/-! ## Breakpoint list -/

theorem IsChain_ne_zero (cells : Nat → breakpoint) :
    ∀ (ps : List Nat) (p : Nat), IsChain cells p ps → ∀ q ∈ ps, q ≠ 0 := by
  intro ps
  induction ps with
  | nil => intro p _ q hq; simp at hq
  | cons x xs ih =>
    intro p h q hq
    obtain ⟨_, hx, hrest⟩ := h
    rcases List.mem_cons.mp hq with rfl | hq
    · exact hx
    · exact ih _ hrest q hq

theorem IsChain_update_of_not_mem (cells : Nat → breakpoint) (x : Nat) (v : breakpoint) :
    ∀ (ps : List Nat) (p : Nat), IsChain cells p ps → x ∉ ps →
      IsChain (Function.update cells x v) p ps := by
  intro ps
  induction ps with
  | nil => intro p h _; exact h
  | cons y ys ih =>
    intro p h hx
    obtain ⟨hp, hy, hrest⟩ := h
    have hyx : y ≠ x := fun e => hx (by simp [e])
    refine ⟨hp, hy, ?_⟩
    rw [Function.update_noteq hyx]
    exact ih _ hrest (fun hm => hx (List.mem_cons_of_mem _ hm))

theorem hasBreakpoint_loop_of_chain (cells : Nat → breakpoint) (address : Nat) :
    ∀ (ps : List Nat) (p fuel : Nat), IsChain cells p ps → ps.length ≤ fuel →
      hasBreakpoint_loop cells address fuel p =
        some (if address ∈ ps.map (fun q => (cells q).value) then 1 else 0) := by
  intro ps
  induction ps with
  | nil =>
    intro p fuel h _
    have hp : p = 0 := h
    subst hp
    cases fuel <;> simp [hasBreakpoint_loop]
  | cons x xs ih =>
    intro p fuel h hlen
    obtain ⟨hp, hx, hrest⟩ := h
    subst hp
    cases fuel with
    | zero => simp at hlen
    | succ fuel =>
      have hlen' : xs.length ≤ fuel := by simpa using hlen
      simp only [hasBreakpoint_loop, hx, ne_eq, not_false_eq_true, if_true]
      by_cases hv : (cells p).value = address
      · simp [hv]
      · rw [if_neg hv, ih _ _ hrest hlen']
        have : ¬ address = (cells p).value := fun e => hv e.symm
        simp [this]

theorem deleteBreakpoint_loop_not_found (address : Nat) (l : breakpoint_list) :
    ∀ (ps : List Nat) (p previous fuel : Nat), IsChain l.cells p ps → ps.length ≤ fuel →
      address ∉ ps.map (fun q => (l.cells q).value) →
      deleteBreakpoint_loop address fuel l p previous = some l := by
  intro ps
  induction ps with
  | nil =>
    intro p previous fuel h _ _
    have hp : p = 0 := h
    subst hp
    cases fuel <;> simp [deleteBreakpoint_loop]
  | cons x xs ih =>
    intro p previous fuel h hlen hnot
    obtain ⟨hp, hx, hrest⟩ := h
    subst hp
    cases fuel with
    | zero => simp at hlen
    | succ fuel =>
      have hlen' : xs.length ≤ fuel := by simpa using hlen
      simp only [List.map_cons, List.mem_cons, not_or] at hnot
      have hv : ¬ (l.cells p).value = address := fun e => hnot.1 e.symm
      simp only [deleteBreakpoint_loop, hx, hv, ne_eq, not_false_eq_true, if_true, if_false]
      exact ih _ _ _ hrest hlen' hnot.2

/-- The loop of `deleteBreakpoint` when the first node holding `address` is `q`, after a
node `x`: `x` is linked to the successor of `q`. -/
theorem deleteBreakpoint_loop_found_mid (address : Nat) (l : breakpoint_list)
    (x q : Nat) (post : List Nat) :
    ∀ (pre : List Nat) (p previous fuel : Nat),
      IsChain l.cells p (pre ++ x :: q :: post) → (pre ++ x :: q :: post).length ≤ fuel →
      (∀ y ∈ pre ++ [x], (l.cells y).value ≠ address) → (l.cells q).value = address →
      deleteBreakpoint_loop address fuel l p previous =
        some
          { l with
            cells := Function.update l.cells x { l.cells x with next := (l.cells q).next } } := by
  intro pre
  induction pre with
  | nil =>
    intro p previous fuel h hlen hne hq
    obtain ⟨hp, hx, hp2, hq0, _⟩ := h
    subst hp
    have hvx : ¬ (l.cells p).value = address := hne p (by simp)
    match fuel, hlen with
    | fuel + 2, _ =>
      simp only [deleteBreakpoint_loop, hx, hvx, ne_eq, not_false_eq_true, if_true, if_false]
      rw [hp2]
      simp [hq0, hq, hx]
  | cons y ys ih =>
    intro p previous fuel h hlen hne hq
    obtain ⟨hp, hy, hrest⟩ := h
    subst hp
    have hvy : ¬ (l.cells p).value = address := hne p (by simp)
    cases fuel with
    | zero => simp at hlen
    | succ fuel =>
      have hlen' : (ys ++ x :: q :: post).length ≤ fuel := by simpa using hlen
      simp only [deleteBreakpoint_loop, hy, hvy, ne_eq, not_false_eq_true, if_true, if_false]
      exact ih _ _ _ hrest hlen' (fun z hz => hne z (by
        rcases List.mem_append.mp hz with h1 | h1
        · exact List.mem_append.mpr (Or.inl (List.mem_cons_of_mem _ h1))
        · exact List.mem_append.mpr (Or.inr h1))) hq

theorem IsChain_unlink (cells : Nat → breakpoint) (x q : Nat) (post : List Nat) :
    ∀ (pre : List Nat) (p : Nat), IsChain cells p (pre ++ x :: q :: post) →
      (pre ++ x :: q :: post).Nodup →
      IsChain (Function.update cells x { cells x with next := (cells q).next }) p
        (pre ++ x :: post) := by
  intro pre
  induction pre with
  | nil =>
    intro p h hnd
    obtain ⟨hp, hx, _, _, hpost⟩ := h
    refine ⟨hp, hx, ?_⟩
    simp only [Function.update_same]
    apply IsChain_update_of_not_mem _ _ _ _ _ hpost
    simp only [List.nil_append, List.nodup_cons, List.mem_cons, not_or] at hnd
    exact hnd.1.2
  | cons y ys ih =>
    intro p h hnd
    obtain ⟨hp, hy, hrest⟩ := h
    have hnd' : (ys ++ x :: q :: post).Nodup := (List.nodup_cons.mp hnd).2
    have hyx : y ≠ x := by
      intro e
      have := (List.nodup_cons.mp hnd).1
      apply this
      rw [e]
      simp
    refine ⟨hp, hy, ?_⟩
    rw [Function.update_noteq hyx]
    exact ih _ hrest hnd'

/-- Removing the node `q` from the chain keeps the list part of the invariant. -/
theorem endCase_remove (e q : Nat) (pre post : List Nat) (hnd : (pre ++ q :: post).Nodup)
    (hq : q ≠ 0)
    (hend : (pre ++ q :: post = [] ∧ e = 0) ∨ (∃ init, pre ++ q :: post = init ++ [e]) ∨
      (e ≠ 0 ∧ e ∉ pre ++ q :: post)) :
    (pre ++ post = [] ∧ e = 0) ∨ (∃ init, pre ++ post = init ++ [e]) ∨
      (e ≠ 0 ∧ e ∉ pre ++ post) := by
  rcases hend with ⟨h, _⟩ | ⟨init, h⟩ | ⟨h1, h2⟩
  · simp at h
  · rcases List.eq_nil_or_concat post with hp | ⟨post1, z, hp⟩
    · subst hp
      have h' : pre ++ [q] = init ++ [e] := by simpa using h
      have := List.append_inj' h' rfl
      obtain ⟨h1, h2⟩ := this
      simp only [List.cons.injEq, and_true] at h2
      subst h2
      right; right
      refine ⟨hq, ?_⟩
      simp only [List.append_nil]
      intro hm
      have := List.nodup_append.mp hnd
      exact this.2.2 hm (by simp)
    · rw [List.concat_eq_append] at hp
      subst hp
      have h' : (pre ++ q :: post1) ++ [z] = init ++ [e] := by simpa using h
      obtain ⟨_, h2⟩ := List.append_inj' h' rfl
      simp only [List.cons.injEq, and_true] at h2
      subst h2
      right; left
      exact ⟨pre ++ post1, by simp⟩
  · right; right
    refine ⟨h1, ?_⟩
    intro hm
    apply h2
    rcases List.mem_append.mp hm with h | h
    · exact List.mem_append.mpr (Or.inl h)
    · exact List.mem_append.mpr (Or.inr (List.mem_cons_of_mem _ h))

theorem nodup_remove {α : Type} (pre post : List α) (q : α) (h : (pre ++ q :: post).Nodup) :
    (pre ++ post).Nodup ∧ q ∉ pre ++ post := by
  have h1 := List.nodup_append.mp h
  have h2 := List.nodup_cons.mp h1.2.1
  refine ⟨List.nodup_append.mpr ⟨h1.1, h2.2, ?_⟩, ?_⟩
  · intro a ha hb
    exact h1.2.2 ha (List.mem_cons_of_mem _ hb)
  · intro hm
    rcases List.mem_append.mp hm with hm | hm
    · exact h1.2.2 hm (by simp)
    · exact h2.1 hm

theorem update_next_value (cells : Nat → breakpoint) (x n : Nat) :
    (fun q => ((Function.update cells x { cells x with next := n }) q).value) =
      fun q => (cells q).value := by
  funext q
  by_cases h : q = x
  · subst h; simp
  · simp [Function.update_noteq h]

theorem deleteBreakpoint_spec (l : breakpoint_list) (hinv : BreakpointsInv l)
    (a fuel : Nat) (hfuel : l.fresh ≤ fuel) :
    ∃ l1, deleteBreakpoint fuel l a = some l1 ∧ BreakpointsInv l1 ∧ l1.fresh = l.fresh ∧
      hasBreakpoint fuel l1 a = some 0 ∧
      (∀ b, b ≠ a → hasBreakpoint fuel l1 b = hasBreakpoint fuel l b) ∧
      (hasBreakpoint fuel l a = some 0 → l1 = l) := by
  obtain ⟨ps, hch, hnd, hlt, hvnd, hend, hlen, hcase⟩ := hinv
  have hfl : ps.length ≤ fuel := by omega
  have hhas : ∀ b, hasBreakpoint fuel l b =
      some (if b ∈ ps.map (fun q => (l.cells q).value) then 1 else 0) :=
    fun b => hasBreakpoint_loop_of_chain l.cells b ps l.head fuel hch hfl
  by_cases hmem : a ∈ ps.map (fun q => (l.cells q).value)
  · obtain ⟨q, hqm, hqv⟩ := List.mem_map.mp hmem
    obtain ⟨pre, post, hps⟩ := List.append_of_mem hqm
    subst hps
    have hq0 : q ≠ 0 := IsChain_ne_zero l.cells _ _ hch q hqm
    have hvals : List.map (fun q => (l.cells q).value) (pre ++ q :: post) =
        List.map (fun q => (l.cells q).value) pre ++
          a :: List.map (fun q => (l.cells q).value) post := by
      simp [hqv]
    rw [hvals] at hvnd
    obtain ⟨hvnd', hanot⟩ := nodup_remove _ _ a hvnd
    obtain ⟨hnd', hqnot⟩ := nodup_remove pre post q hnd
    have hcase' := endCase_remove l.end_ q pre post hnd hq0 hcase
    have hlt' : ∀ y ∈ pre ++ post, y < l.fresh := by
      intro y hy
      apply hlt
      rcases List.mem_append.mp hy with h | h
      · exact List.mem_append.mpr (Or.inl h)
      · exact List.mem_append.mpr (Or.inr (List.mem_cons_of_mem _ h))
    have hlen' : (pre ++ post).length < l.fresh := by
      simp only [List.length_append, List.length_cons] at hlen ⊢
      omega
    have hfl' : (pre ++ post).length ≤ fuel := by omega
    have hmapeq : List.map (fun q => (l.cells q).value) (pre ++ post) =
        List.map (fun q => (l.cells q).value) pre ++
          List.map (fun q => (l.cells q).value) post := by simp
    have hres : ∀ b, (if b ∈ List.map (fun q => (l.cells q).value) (pre ++ post) then 1 else 0)
        = if b = a then 0
          else (if b ∈ List.map (fun q => (l.cells q).value) (pre ++ q :: post)
            then 1 else 0) := by
      intro b
      by_cases hb : b = a
      · subst hb
        rw [hmapeq]
        simp [hanot]
      · rw [hvals, hmapeq]
        simp [hb]
    have hpre_ne : ∀ y ∈ pre, (l.cells y).value ≠ a := by
      intro y hy hv
      apply hanot
      apply List.mem_append.mpr
      left
      exact List.mem_map.mpr ⟨y, hy, hv⟩
    rcases List.eq_nil_or_concat pre with hpre | ⟨pre1, x, hpre⟩
    · subst hpre
      simp only [List.nil_append, List.map_nil] at *
      obtain ⟨hhead, _, hrest⟩ := hch
      have hfuel1 : ∃ f, fuel = f + 1 := ⟨fuel - 1, by simp at hfl; omega⟩
      obtain ⟨f, rfl⟩ := hfuel1
      have hdel : deleteBreakpoint (f + 1) l a =
          some { l with head := (l.cells l.head).next } := by
        simp [deleteBreakpoint, deleteBreakpoint_loop, hhead, hq0, hqv]
      have hch1 : IsChain l.cells (l.cells l.head).next post := by rw [hhead]; exact hrest
      have hinv1 : BreakpointsInv { l with head := (l.cells l.head).next } :=
        ⟨post, hch1, by simpa using hnd', by simpa using hlt', by simpa using hvnd', hend,
          by simpa using hlen', by simpa using hcase'⟩
      have hhas1 : ∀ b, hasBreakpoint (f + 1) { l with head := (l.cells l.head).next } b =
          some (if b ∈ List.map (fun q => (l.cells q).value) post then 1 else 0) :=
        fun b => hasBreakpoint_loop_of_chain l.cells b post _ (f + 1) hch1
          (by simpa using hfl')
      refine ⟨_, hdel, hinv1, rfl, ?_, ?_, ?_⟩
      · rw [hhas1, hres a]
        simp
      · intro b hb
        rw [hhas1, hhas, hres b]
        simp [hb]
      · intro h0
        rw [hhas, if_pos hmem] at h0
        cases h0
    · rw [List.concat_eq_append] at hpre
      subst hpre
      have hassoc' : (pre1 ++ [x]) ++ post = pre1 ++ x :: post := by simp
      have hch2 : IsChain l.cells l.head (pre1 ++ x :: q :: post) := by simpa using hch
      have hnd2 : (pre1 ++ x :: q :: post).Nodup := by simpa using hnd
      have hfl2 : (pre1 ++ x :: q :: post).length ≤ fuel := by simpa using hfl
      have hdel : deleteBreakpoint fuel l a =
          some
            { l with
              cells := Function.update l.cells x
                { l.cells x with next := (l.cells q).next } } :=
        deleteBreakpoint_loop_found_mid a l x q post pre1 l.head 0 fuel hch2 hfl2 hpre_ne hqv
      have hch1 := IsChain_unlink l.cells x q post pre1 l.head hch2 hnd2
      rw [← hassoc'] at hch1
      have hveq := update_next_value l.cells x (l.cells q).next
      have hinv1 : BreakpointsInv
          { l with
            cells := Function.update l.cells x
              { l.cells x with next := (l.cells q).next } } := by
        refine ⟨pre1 ++ [x] ++ post, hch1, hnd', hlt', ?_, hend, hlen', hcase'⟩
        simp only [hveq]
        rw [hmapeq]
        exact hvnd'
      have hhas1 : ∀ b, hasBreakpoint fuel
          { l with
            cells := Function.update l.cells x
              { l.cells x with next := (l.cells q).next } } b =
          some (if b ∈ List.map (fun q => (l.cells q).value) (pre1 ++ [x] ++ post)
            then 1 else 0) := by
        intro b
        have := hasBreakpoint_loop_of_chain _ b _ _ fuel hch1 hfl'
        simp only [hveq] at this
        exact this
      refine ⟨_, hdel, hinv1, rfl, ?_, ?_, ?_⟩
      · rw [hhas1, hres a]
        simp
      · intro b hb
        rw [hhas1, hhas, hres b]
        simp [hb]
      · intro h0
        rw [hhas, if_pos hmem] at h0
        cases h0
  · have hdel : deleteBreakpoint fuel l a = some l :=
      deleteBreakpoint_loop_not_found a l ps l.head 0 fuel hch hfl hmem
    refine ⟨l, hdel, ⟨ps, hch, hnd, hlt, hvnd, hend, hlen, hcase⟩, rfl, ?_, ?_, ?_⟩
    · rw [hhas]; simp [hmem]
    · intro b _; rfl
    · intro _; rfl

theorem hasBreakpoint_loop_zero_not_mem (cells : Nat → breakpoint) (address : Nat) :
    ∀ (ps : List Nat) (p fuel : Nat), IsChain cells p ps →
      hasBreakpoint_loop cells address fuel p = some 0 →
      address ∉ ps.map (fun q => (cells q).value) := by
  intro ps
  induction ps with
  | nil => intro p fuel _ _; simp
  | cons x xs ih =>
    intro p fuel h hres
    obtain ⟨hp, hx, hrest⟩ := h
    subst hp
    cases fuel with
    | zero => simp [hasBreakpoint_loop, hx] at hres
    | succ fuel =>
      simp only [hasBreakpoint_loop, hx, ne_eq, not_false_eq_true, if_true] at hres
      by_cases hv : (cells p).value = address
      · simp [hv] at hres
      · rw [if_neg hv] at hres
        have := ih _ _ hrest hres
        simp only [List.map_cons, List.mem_cons, not_or]
        exact ⟨fun e => hv e.symm, this⟩

theorem IsChain_append_new (cells : Nat → breakpoint) (e new : Nat) (v : breakpoint)
    (hv : v.next = 0) (hnew : new ≠ 0) :
    ∀ (init : List Nat) (p : Nat), IsChain cells p (init ++ [e]) → new ∉ init ++ [e] →
      (init ++ [e]).Nodup →
      IsChain (Function.update (Function.update cells new v) e
        { (Function.update cells new v) e with next := new }) p (init ++ [e, new]) := by
  intro init
  induction init with
  | nil =>
    intro p h hnm _
    obtain ⟨hp, he, _⟩ := h
    have hne : new ≠ e := fun h => hnm (by simp [h])
    refine ⟨hp, he, ?_⟩
    simp only [Function.update_same]
    refine ⟨rfl, hnew, ?_⟩
    rw [Function.update_noteq hne, Function.update_same]
    exact hv
  | cons y ys ih =>
    intro p h hnm hnd
    obtain ⟨hp, hy, hrest⟩ := h
    have hnd' : (ys ++ [e]).Nodup := (List.nodup_cons.mp hnd).2
    have hye : y ≠ e := by
      intro h
      apply (List.nodup_cons.mp hnd).1
      rw [h]; simp
    have hyn : y ≠ new := by
      intro h
      apply hnm
      rw [h]; simp
    refine ⟨hp, hy, ?_⟩
    rw [Function.update_noteq hye, Function.update_noteq hyn]
    exact ih _ hrest (fun hm => hnm (List.mem_cons_of_mem _ hm)) hnd'

theorem BreakpointsInv_empty : BreakpointsInv emptyBreakpoints :=
  ⟨[], rfl, List.nodup_nil, by simp, by simp, by decide, by decide, Or.inl ⟨rfl, rfl⟩⟩

theorem deleteAllBreakpoints_inv (l l1 : breakpoint_list) (hinv : BreakpointsInv l)
    (fuel : Nat) (h : deleteAllBreakpoints fuel l = some l1) : BreakpointsInv l1 := by
  obtain ⟨ps, _, _, _, _, hend, _, _⟩ := hinv
  unfold deleteAllBreakpoints at h
  cases hl : deleteAllBreakpoints_loop l.cells fuel l.head with
  | none => simp [hl] at h
  | some u =>
    simp only [hl, Option.some.injEq] at h
    subst h
    exact ⟨[], rfl, List.nodup_nil, by simp, by simp, by simp; omega, by simp; omega,
      Or.inl ⟨rfl, rfl⟩⟩

theorem addBreakpoint_inv (l l1 : breakpoint_list) (hinv : BreakpointsInv l)
    (a fuel : Nat) (h : addBreakpoint fuel l a = some l1) : BreakpointsInv l1 := by
  unfold addBreakpoint at h
  cases hf : hasBreakpoint fuel l a with
  | none => simp [hf] at h
  | some found =>
    simp only [hf] at h
    by_cases h0 : found = 0
    · subst h0
      obtain ⟨ps, hch, hnd, hlt, hvnd, hend, hlen, hcase⟩ := hinv
      have hanot := hasBreakpoint_loop_zero_not_mem l.cells a ps l.head fuel hch hf
      have hfresh0 : l.fresh ≠ 0 := by omega
      have hfnm : l.fresh ∉ ps := fun hm => Nat.lt_irrefl _ (hlt _ hm)
      simp only [if_true] at h
      by_cases hhe : l.head = 0 ∧ l.end_ = 0
      · simp only [hhe, and_self, if_true, Option.some.injEq] at h
        subst h
        have hps : ps = [] := by
          cases ps with
          | nil => rfl
          | cons x xs =>
            obtain ⟨hp, hx, _⟩ := hch
            exact absurd (hp ▸ hhe.1) hx
        subst hps
        refine ⟨[l.fresh], ⟨rfl, hfresh0, ?_⟩, by simp, by simp, by simp, by simp,
          by simp; omega, Or.inr (Or.inl ⟨[], rfl⟩)⟩
        simp [IsChain]
      · simp only [hhe, if_false, Option.some.injEq] at h
        subst h
        rcases hcase with ⟨hps, he⟩ | ⟨init, hps⟩ | ⟨he0, henm⟩
        · subst hps
          have : l.head = 0 := hch
          exact absurd ⟨this, he⟩ hhe
        · subst hps
          have hch1 := IsChain_append_new l.cells l.end_ l.fresh { value := a, next := 0 } rfl
            hfresh0 init l.head hch hfnm hnd
          have hef : l.end_ ≠ l.fresh := by omega
          have hvals : List.map (fun q =>
              ((Function.update (Function.update l.cells l.fresh { value := a, next := 0 })
                l.end_ { (Function.update l.cells l.fresh { value := a, next := 0 }) l.end_
                  with next := l.fresh }) q).value) (init ++ [l.end_, l.fresh]) =
              List.map (fun q => (l.cells q).value) (init ++ [l.end_]) ++ [a] := by
            rw [update_next_value]
            have : init ++ [l.end_, l.fresh] = (init ++ [l.end_]) ++ [l.fresh] := by simp
            rw [this, List.map_append]
            congr 1
            · apply List.map_congr_left
              intro y hy
              have : y ≠ l.fresh := fun e => hfnm (e ▸ hy)
              simp [Function.update_noteq this]
            · simp
          refine ⟨init ++ [l.end_, l.fresh], hch1, ?_, ?_, ?_, by simp, ?_,
            Or.inr (Or.inl ⟨init ++ [l.end_], by simp⟩)⟩
          · have : init ++ [l.end_, l.fresh] = (init ++ [l.end_]) ++ [l.fresh] := by simp
            rw [this]
            apply List.nodup_append.mpr
            refine ⟨hnd, by simp, ?_⟩
            intro y hy hy2
            simp only [List.mem_singleton] at hy2
            exact hfnm (hy2 ▸ hy)
          · intro y hy
            have : y ∈ init ++ [l.end_] ∨ y = l.fresh := by
              simp only [List.mem_append, List.mem_cons, List.mem_singleton,
                List.not_mem_nil, or_false] at hy ⊢
              tauto
            rcases this with h | h
            · exact Nat.lt_succ_of_lt (hlt y h)
            · rw [h]; exact Nat.lt_succ_self _
          · rw [hvals]
            apply List.nodup_append.mpr
            refine ⟨hvnd, by simp, ?_⟩
            intro y hy hy2
            simp only [List.mem_singleton] at hy2
            exact hanot (hy2 ▸ hy)
          · simp only [List.length_append, List.length_cons, List.length_nil] at hlen ⊢
            omega
        · have hef : l.end_ ≠ l.fresh := by omega
          have hch1 : IsChain (Function.update
              (Function.update l.cells l.fresh { value := a, next := 0 }) l.end_
              { (Function.update l.cells l.fresh { value := a, next := 0 }) l.end_
                with next := l.fresh }) l.head ps :=
            IsChain_update_of_not_mem _ _ _ _ _
              (IsChain_update_of_not_mem _ _ _ _ _ hch hfnm) henm
          have hvals : List.map (fun q =>
              ((Function.update (Function.update l.cells l.fresh { value := a, next := 0 })
                l.end_ { (Function.update l.cells l.fresh { value := a, next := 0 }) l.end_
                  with next := l.fresh }) q).value) ps =
              List.map (fun q => (l.cells q).value) ps := by
            rw [update_next_value]
            apply List.map_congr_left
            intro y hy
            have : y ≠ l.fresh := fun e => hfnm (e ▸ hy)
            simp [Function.update_noteq this]
          refine ⟨ps, hch1, hnd, fun y hy => Nat.lt_succ_of_lt (hlt y hy), ?_, by simp,
            Nat.lt_succ_of_lt hlen, Or.inr (Or.inr ⟨hfresh0, hfnm⟩)⟩
          rw [hvals]
          exact hvnd
    · simp only [h0, if_false, Option.some.injEq] at h
      subst h
      exact hinv

theorem deleteBreakpoint_loop_mono (address : Nat) (l l1 : breakpoint_list) :
    ∀ (fuel p previous : Nat), deleteBreakpoint_loop address fuel l p previous = some l1 →
      ∀ fuel1, fuel ≤ fuel1 → deleteBreakpoint_loop address fuel1 l p previous = some l1 := by
  intro fuel
  induction fuel with
  | zero =>
    intro p previous h fuel1 _
    by_cases hp : p = 0
    · subst hp
      cases fuel1 <;> simpa [deleteBreakpoint_loop] using h
    · simp [deleteBreakpoint_loop, hp] at h
  | succ fuel ih =>
    intro p previous h fuel1 hle
    obtain ⟨f1, rfl⟩ : ∃ f1, fuel1 = f1 + 1 := ⟨fuel1 - 1, by omega⟩
    by_cases hp : p = 0
    · subst hp
      simpa [deleteBreakpoint_loop] using h
    · by_cases hv : (l.cells p).value = address
      · simpa [deleteBreakpoint_loop, hp, hv] using h
      · simp only [deleteBreakpoint_loop, hp, hv, ne_eq, not_false_eq_true, if_true,
          if_false] at h ⊢
        exact ih _ _ h f1 (by omega)

theorem deleteBreakpoint_inv (l l1 : breakpoint_list) (hinv : BreakpointsInv l)
    (a fuel : Nat) (h : deleteBreakpoint fuel l a = some l1) : BreakpointsInv l1 := by
  have h1 := deleteBreakpoint_loop_mono a l l1 fuel l.head 0 h (max fuel l.fresh)
    (Nat.le_max_left _ _)
  obtain ⟨l2, hdel, hinv2, _⟩ := deleteBreakpoint_spec l hinv a (max fuel l.fresh)
    (Nat.le_max_right _ _)
  unfold deleteBreakpoint at hdel
  rw [h1] at hdel
  simp only [Option.some.injEq] at hdel
  subst hdel
  exact hinv2

theorem ReachableBreakpoints_inv (l : breakpoint_list) (h : ReachableBreakpoints l) :
    BreakpointsInv l := by
  induction h with
  | empty => exact BreakpointsInv_empty
  | add fuel l l1 a _ hadd ih => exact addBreakpoint_inv l l1 ih a fuel hadd
  | delete fuel l l1 a _ hdel ih => exact deleteBreakpoint_inv l l1 ih a fuel hdel
  | deleteAll fuel l l1 _ hall ih => exact deleteAllBreakpoints_inv l l1 ih fuel hall

/-- C14: from the empty list, with any positive number of loop iterations allowed,
`addBreakpoint(0x10)`, `deleteBreakpoint(0x10)` and `addBreakpoint(0x20)` all return, and
afterwards `hasBreakpoint(0x20)` is 0: `head` is still NULL, the new node was linked after
the node `end` still points to. -/
theorem C14_add_after_delete_lost : ∀ f : Nat,
    ∃ l1 l2 l3, addBreakpoint (f + 1) emptyBreakpoints 0x10 = some l1 ∧
      deleteBreakpoint (f + 1) l1 0x10 = some l2 ∧
      addBreakpoint (f + 1) l2 0x20 = some l3 ∧
      ReachableBreakpoints l2 ∧
      hasBreakpoint (f + 1) l3 0x20 = some 0 ∧ l3.head = 0 ∧ l3.end_ = 2 := by
  intro f
  have h1 : addBreakpoint (f + 1) emptyBreakpoints 0x10 =
      some { cells := Function.update emptyBreakpoints.cells 1 { value := 0x10, next := 0 }
             head := 1, end_ := 1, fresh := 2 } := by
    simp [addBreakpoint, hasBreakpoint, hasBreakpoint_loop, emptyBreakpoints]
  have h2 : deleteBreakpoint (f + 1)
      { cells := Function.update emptyBreakpoints.cells 1 { value := 0x10, next := 0 }
        head := 1, end_ := 1, fresh := 2 } 0x10 =
      some { cells := Function.update emptyBreakpoints.cells 1 { value := 0x10, next := 0 }
             head := 0, end_ := 1, fresh := 2 } := by
    simp [deleteBreakpoint, deleteBreakpoint_loop, emptyBreakpoints]
  have h3 : ∃ c, addBreakpoint (f + 1)
      { cells := Function.update emptyBreakpoints.cells 1 { value := 0x10, next := 0 }
        head := 0, end_ := 1, fresh := 2 } 0x20 =
      some { cells := c, head := 0, end_ := 2, fresh := 3 } := by
    simp [addBreakpoint, hasBreakpoint, hasBreakpoint_loop, emptyBreakpoints]
  obtain ⟨c, h3⟩ := h3
  refine ⟨_, _, _, h1, h2, h3, ?_, ?_, rfl, rfl⟩
  · exact ReachableBreakpoints.delete _ _ _ _
      (ReachableBreakpoints.add _ _ _ _ ReachableBreakpoints.empty h1) h2
  · simp [hasBreakpoint, hasBreakpoint_loop]

/-- C15: in every reachable list state, with at least as many iterations allowed as
nodes were ever allocated, `deleteBreakpoint(a)` returns, afterwards `hasBreakpoint(a)`
is 0 and `hasBreakpoint(b)` is what it was for every `b` other than `a`, and the state is
unchanged when `a` was absent; `hasBreakpoint` itself returns 0 or 1; and after
`addBreakpoint(0x10)` and `deleteBreakpoint(0x10)` on the empty list `hasBreakpoint` is 0
for every address. -/
theorem C15_delete_breakpoint (l : breakpoint_list) (hreach : ReachableBreakpoints l)
    (a fuel : Nat) (hfuel : l.fresh ≤ fuel) :
    (∃ l1, deleteBreakpoint fuel l a = some l1 ∧ hasBreakpoint fuel l1 a = some 0 ∧
      (∀ b, b ≠ a → hasBreakpoint fuel l1 b = hasBreakpoint fuel l b) ∧
      (hasBreakpoint fuel l a = some 0 → l1 = l)) ∧
    (∀ b, hasBreakpoint fuel l b = some 0 ∨ hasBreakpoint fuel l b = some 1) ∧
    (∃ l1 l2, addBreakpoint fuel emptyBreakpoints 0x10 = some l1 ∧
      deleteBreakpoint fuel l1 0x10 = some l2 ∧ ∀ b, hasBreakpoint fuel l2 b = some 0) := by
  have hinv := ReachableBreakpoints_inv l hreach
  obtain ⟨l1, hdel, _, _, h1, h2, h3⟩ := deleteBreakpoint_spec l hinv a fuel hfuel
  refine ⟨⟨l1, hdel, h1, h2, h3⟩, ?_, ?_⟩
  · intro b
    obtain ⟨ps, hch, _, _, _, _, hlen, _⟩ := hinv
    have := hasBreakpoint_loop_of_chain l.cells b ps l.head fuel hch (by omega)
    unfold hasBreakpoint
    rw [this]
    by_cases hb : b ∈ List.map (fun q => (l.cells q).value) ps
    · right; simp [hb]
    · left; simp [hb]
  · have hpos : 1 ≤ fuel := by
      obtain ⟨_, _, _, _, _, hend, _, _⟩ := hinv
      omega
    obtain ⟨f, rfl⟩ : ∃ f, fuel = f + 1 := ⟨fuel - 1, by omega⟩
    refine ⟨{ cells := Function.update emptyBreakpoints.cells 1 { value := 0x10, next := 0 }
              head := 1, end_ := 1, fresh := 2 },
      { cells := Function.update emptyBreakpoints.cells 1 { value := 0x10, next := 0 }
        head := 0, end_ := 1, fresh := 2 }, ?_, ?_, ?_⟩
    · simp [addBreakpoint, hasBreakpoint, hasBreakpoint_loop, emptyBreakpoints]
    · simp [deleteBreakpoint, deleteBreakpoint_loop, emptyBreakpoints]
    · intro b
      simp [hasBreakpoint, hasBreakpoint_loop]

/-- Witness of C15: deleting `0x10` from the list that holds only `0x10`. -/
theorem C15_delete_breakpoint_witness :
    ∃ l1, deleteBreakpoint 2 oneBreakpoint 0x10 = some l1 ∧
      hasBreakpoint 2 l1 0x10 = some 0 ∧
      (∀ b, b ≠ 0x10 → hasBreakpoint 2 l1 b = hasBreakpoint 2 oneBreakpoint b) ∧
      (hasBreakpoint 2 oneBreakpoint 0x10 = some 0 → l1 = oneBreakpoint) :=
  (C15_delete_breakpoint oneBreakpoint
    (ReachableBreakpoints.add 1 emptyBreakpoints oneBreakpoint 0x10
      ReachableBreakpoints.empty rfl) 0x10 2 (by decide)).1

/-! ## Debugger: `next` on a CALL at a breakpoint -/

theorem main_next_call_at_breakpoint (hasBp uninit : Nat → Nat) (fuel : Nat)
    (s : machine_state_t) (i : y86_instruction_t) (hcall : i.icode = I_CALL)
    (hbp : hasBp s.programCounter ≠ 0) :
    main_next hasBp uninit fuel s i = outcome.finished s i := by
  cases fuel <;> simp [main_next, main_next_loop, hcall, hbp]

theorem main_next_call_no_breakpoint (hasBp uninit : Nat → Nat) (fuel : Nat)
    (s : machine_state_t) (i : y86_instruction_t) (hcall : i.icode = I_CALL)
    (hbp : hasBp s.programCounter = 0) :
    ∃ st, executeInstruction s i = some (1, st) ∧
      st.registerFile R_RSP = (s.registerFile R_RSP + (U64 - 8)) % U64 ∧
      st.programCounter = i.valC ∧
      (main_next hasBp uninit (fuel + 1) s i =
          outcome.finished st (fetchInstruction uninit st i).2 ∨
        main_next hasBp uninit (fuel + 1) s i =
          main_next_loop hasBp uninit (s.registerFile R_RSP) fuel st
            (fetchInstruction uninit st i).2) := by
  have hex : executeInstruction s i = some (1,
      { s with
        programMap := Function.update s.programMap ((s.registerFile R_RSP + (U64 - 8)) % U64)
          (i.valP % 256)
        registerFile := Function.update s.registerFile R_RSP
          ((s.registerFile R_RSP + (U64 - 8)) % U64)
        programCounter := i.valC
        conditionCodes := s.conditionCodes % 256 }) := by
    unfold executeInstruction
    simp [hcall, I_HALT, I_INVALID, I_TOO_SHORT, I_RRMVXX, I_IRMOVQ, I_RMMOVQ, I_MRMOVQ, I_OPQ,
      I_JXX, I_CALL, I_RET, I_PUSHQ, I_POPQ, executeInstruction_update]
  refine ⟨_, hex, by simp, rfl, ?_⟩
  have c1 : ¬ I_CALL = I_HALT := by decide
  have c2 : ¬ I_CALL = I_INVALID := by decide
  simp only [main_next, hcall, ne_eq, not_true_eq_false, if_false, main_next_loop, hbp, c1, c2,
    not_false_eq_true, and_self, if_true, hex, Nat.one_ne_zero]
  split_ifs
  · left; rfl
  · right; rfl

/-- C21: on `callReturnImage` with a breakpoint on address 0, where the current record is
the CALL located at 0, `next` ends at once with the state and the record unchanged (the
CALL is not executed), for every number of iterations allowed; `step` and `run` on the
same input execute the CALL: stack pointer 56, program counter `0x20`. -/
theorem C21_next_skips_call_at_breakpoint :
    callReturnStart.2.icode = I_CALL ∧
    callReturnStart.2.location = callReturnStart.1.programCounter ∧
    breakpointAt0 callReturnStart.2.location ≠ 0 ∧
    (∀ fuel, main_next breakpointAt0 zeroUninit fuel callReturnStart.1 callReturnStart.2 =
      outcome.finished callReturnStart.1 callReturnStart.2) ∧
    (∃ st i, main_step zeroUninit callReturnStart.1 callReturnStart.2 =
        outcome.finished st i ∧
      st.registerFile R_RSP = 56 ∧ st.programCounter = 0x20) ∧
    (∃ st i, main_run breakpointAt0 zeroUninit 2 callReturnStart.1 callReturnStart.2 =
        outcome.finished st i ∧
      st.registerFile R_RSP = 64 ∧ st.programCounter = 9) :=
  ⟨by decide, by decide, by decide,
    fun fuel => main_next_call_at_breakpoint breakpointAt0 zeroUninit fuel _ _
      (by decide) (by decide),
    ⟨_, _, rfl, rfl, rfl⟩, ⟨_, _, rfl, rfl, rfl⟩⟩

/-! ## Decoder: what the returned `int` says -/

theorem fetchInstruction_ret_zero_iff (uninit : Nat → Nat) (s : machine_state_t)
    (i : y86_instruction_t) :
    (fetchInstruction uninit s i).1 = 0 ↔
      ((fetchInstruction uninit s i).2.icode = I_INVALID ∨
        (fetchInstruction uninit s i).2.icode = I_TOO_SHORT) := by
  unfold fetchInstruction fetchInstruction_body fetchInstruction_registers
    fetchInstruction_valC
  by_cases hread : s.programCounter ≤ s.programSize
  · simp only [memReadByte_of_le s _ _ hread, hi_nibble_eq, lo_nibble_eq]
    have ho := opcodeNibble_lt s
    unfold opcodeNibble at ho
    generalize s.programMap s.programCounter % 256 / 16 = op at *
    generalize s.programMap s.programCounter % 256 % 16 = fn at *
    simp only [I_POPQ, I_IRMOVQ, I_OPQ, I_JXX, C_G, I_HALT, C_NC, I_RRMVXX, I_RMMOVQ,
      I_MRMOVQ, I_PUSHQ, I_CALL, R_NONE, I_INVALID, I_TOO_SHORT, I_NOP, I_RET] at *
    interval_cases op <;> simp <;> split_ifs <;> simp
  · simp [memReadByte_of_gt s _ _ (Nat.not_le.mp hread), hread]

/-- C22: `fetchInstruction` returns 1 on the 1-byte image `0x00` with opcode HALT, and
returns 1 on the 1-byte image `0x10` with opcode nibble 1, a record on which
`executeInstruction` returns 0 in every machine state. -/
theorem C22_fetch_accepts_halt_and_nop :
    ∀ (uninit : Nat → Nat) (instr : y86_instruction_t),
    (fetchInstruction uninit (loadImage [0x00] 0) instr).1 = 1 ∧
    (fetchInstruction uninit (loadImage [0x00] 0) instr).2.icode = I_HALT ∧
    (fetchInstruction uninit (loadImage [0x10] 0) instr).1 = 1 ∧
    (fetchInstruction uninit (loadImage [0x10] 0) instr).2.icode = I_NOP ∧
    ∀ s : machine_state_t, ∃ st,
      executeInstruction s (fetchInstruction uninit (loadImage [0x10] 0) instr).2 =
        some (0, st) := by
  intro uninit instr
  have hb : ∀ v, memReadByte (loadImage [0x00] 0) 0 v = (1, 0) := by
    intro v; simp [memReadByte, isValidAddress, loadImage]
  have hb2 : ∀ v, memReadByte (loadImage [0x10] 0) 0 v = (1, 0x10) := by
    intro v; simp [memReadByte, isValidAddress, loadImage]
  have e1 : (0x10 &&& 0xf0) >>> 4 = 1 := by decide
  have e2 : 0x10 &&& 0xf = 0 := by decide
  have hpc : (loadImage [0x00] 0).programCounter = 0 := rfl
  have hpc2 : (loadImage [0x10] 0).programCounter = 0 := rfl
  have h3 : (fetchInstruction uninit (loadImage [0x10] 0) instr).2.icode = I_NOP := by
    simp [fetchInstruction, fetchInstruction_body, fetchInstruction_registers,
      fetchInstruction_valC, hpc2, hb2, e1, e2,
      I_POPQ, I_IRMOVQ, I_OPQ, I_JXX, C_G, I_HALT, C_NC, I_RRMVXX, I_RMMOVQ,
      I_MRMOVQ, I_PUSHQ, I_CALL, R_NONE, I_INVALID, I_TOO_SHORT, I_NOP, I_RET]
  refine ⟨?_, ?_, ?_, h3, ?_⟩
  · simp [fetchInstruction, fetchInstruction_body, fetchInstruction_registers,
      fetchInstruction_valC, hpc, hb,
      I_POPQ, I_IRMOVQ, I_OPQ, I_JXX, C_G, I_HALT, C_NC, I_RRMVXX, I_RMMOVQ,
      I_MRMOVQ, I_PUSHQ, I_CALL, R_NONE, I_INVALID, I_TOO_SHORT, I_NOP, I_RET]
  · simp [fetchInstruction, fetchInstruction_body, fetchInstruction_registers,
      fetchInstruction_valC, hpc, hb,
      I_POPQ, I_IRMOVQ, I_OPQ, I_JXX, C_G, I_HALT, C_NC, I_RRMVXX, I_RMMOVQ,
      I_MRMOVQ, I_PUSHQ, I_CALL, R_NONE, I_INVALID, I_TOO_SHORT, I_NOP, I_RET]
  · simp [fetchInstruction, fetchInstruction_body, fetchInstruction_registers,
      fetchInstruction_valC, hpc2, hb2, e1, e2,
      I_POPQ, I_IRMOVQ, I_OPQ, I_JXX, C_G, I_HALT, C_NC, I_RRMVXX, I_RMMOVQ,
      I_MRMOVQ, I_PUSHQ, I_CALL, R_NONE, I_INVALID, I_TOO_SHORT, I_NOP, I_RET]
  · intro s
    refine ⟨_, executeInstruction_of_not_executable s _ ?_⟩
    unfold executableIcode
    rw [h3]
    decide

end Y86
